import Mathlib

/-!
TreeSpotter backend: the meadow / tree / image repository layer.

A shallow embedding of `db/db.go` and of the handlers of `restApi.go` that
compose its functions.  The relational store is an explicit value: three
tables (lists of rows) and the AUTO_INCREMENT counters of their `ID` columns.
Each repository function is a function from a store to a new store and a
result.

Conventions of the embedding

* Go `int` / `int64` values are `Int`; the conversions `int64(treeId)` and
  `int(treeId)` are the identity.
* A Go `error` is `Option DbError`; `none` is `nil`.
* A statement sent with `DB.Exec` or `DB.QueryRow` reaches the server and is
  executed: connection faults (the `err != nil` branches directly after
  `DB.Exec`, and the `panic(err)` branches) end the call with an error or a
  panic and are outside the model.  The one place where the code goes on after
  such a fault is the cascade of `DeleteOneMeadowForUser`, which only prints
  the error of a failed tree delete: `deleteTreeOnlyExec` and
  `DeleteOneMeadowForUserExec` take the outcome of each `DB.Exec` as an
  argument, and the functions without the suffix are the case in which every
  statement is executed.
* `SELECT ... WHERE p` through `QueryRow(...).Scan` yields the first row of the
  table that satisfies `p`, or `sql.ErrNoRows`.
* `DELETE ... WHERE p` removes every row satisfying `p`; `RowsAffected` is the
  number of rows removed.
* The tables carry no foreign-key constraint: no function handles a constraint
  violation, and `insertTree` answers "Tree inserted but failed to update
  meadow" when the meadow named by an inserted tree is not found.
* `UPDATE ... SET ... WHERE p` rewrites every row satisfying `p`.  The DSN that
  `Connect` builds is `user:password@tcp(host:port)/name?parseTime=true`: the
  driver flag `clientFoundRows` keeps its default `false`, so `RowsAffected`
  of an UPDATE is the number of rows whose stored value actually changed, not
  the number of rows matched by the WHERE clause.
-/

namespace TreeSpotter

/-! ## Data model -/

/-- Modelled from the spec: the struct `models.Meadow` (its file is not among
the sources; the fields are the ones `db.go` scans and writes: `ID`,
`Location`, `Name`, `Size`, `TreeIds`).  `Size` is numeric and is only carried,
never computed on.  `TreeIds` is the serialized list column; a nil and an
empty slice are both the empty list. -/
structure Meadow where
  ID : Int
  Location : String
  Name : String
  Size : Int
  TreeIds : List Int
deriving DecidableEq, Repr

/-- Modelled from the spec: the struct `models.Tree` (its file is not among the
sources; the fields are the ones `db.go` scans and writes: `ID`, `PlantDate`,
`MeadowId`, `Position`, `Type`).  The Go field `Type` is `TreeType` here. -/
structure Tree where
  ID : Int
  PlantDate : String
  MeadowId : Int
  Position : String
  TreeType : String
deriving DecidableEq, Repr

/-- The struct `models.Image` of `models/image.go`. -/
structure Image where
  ID : Int
  Path : String
  Description : String
  Datetime : String
deriving DecidableEq, Repr

/-- The zero value of `models.Meadow`, what `var meadow models.Meadow` holds. -/
def Meadow.zero : Meadow := ⟨0, "", "", 0, []⟩

/-- The zero value of `models.Tree`. -/
def Tree.zero : Tree := ⟨0, "", 0, "", ""⟩

/-- A row of table `meadows(ID, Location, Name, Size, TreeIds, user_id)`. -/
structure MeadowRow where
  ID : Int
  Location : String
  Name : String
  Size : Int
  TreeIds : List Int
  user_id : Int
deriving DecidableEq, Repr

/-- A row of table `trees(ID, PlantDate, MeadowId, Position, Type, user_id)`. -/
structure TreeRow where
  ID : Int
  PlantDate : String
  MeadowId : Int
  Position : String
  TreeType : String
  user_id : Int
deriving DecidableEq, Repr

/-- A row of table `images(id, path, description, datetime, tree_id, user_id)`. -/
structure ImageRow where
  id : Int
  path : String
  description : String
  datetime : String
  tree_id : Int
  user_id : Int
deriving DecidableEq, Repr

/-- The database behind the handle `DB`: the three tables in storage order and
the next value of each AUTO_INCREMENT `ID` column. -/
structure Store where
  meadows : List MeadowRow
  trees : List TreeRow
  images : List ImageRow
  nextMeadowId : Int
  nextTreeId : Int
  nextImageId : Int
deriving DecidableEq, Repr

/-- A freshly created database: no rows, counters at 1. -/
def Store.empty : Store := ⟨[], [], [], 1, 1, 1⟩

/-- The errors the repository functions build with `fmt.Errorf`. -/
inductive DbError where
  /-- The message "meadow with ID %d not found". -/
  | meadowNotFound (meadowId : Int)
  /-- The message "no meadow found with ID %d and user ID %d". -/
  | noMeadowForUser (meadowId userID : Int)
  /-- The message "tree with ID %d not found". -/
  | treeNotFound (treeId : Int)
  /-- The message "no tree found with ID %d and user ID %d". -/
  | noTreeForUser (treeId userID : Int)
  /-- The message "no meadow found with ID %d". -/
  | noMeadowFound (meadowId : Int)
  /-- The message "failed to delete tree: ..." that wraps the error of `DB.Exec`. -/
  | deleteTreeFailed
  /-- The message "failed to delete meadow: ..." that wraps the error of `DB.Exec`. -/
  | deleteMeadowFailed
deriving DecidableEq, Repr

/-- The columns `SELECT ID, Location, Name, Size, TreeIds` scans. -/
def MeadowRow.toMeadow (r : MeadowRow) : Meadow :=
  ⟨r.ID, r.Location, r.Name, r.Size, r.TreeIds⟩

/-- The columns `SELECT ID, PlantDate, MeadowId, Position, Type` scans. -/
def TreeRow.toTree (r : TreeRow) : Tree :=
  ⟨r.ID, r.PlantDate, r.MeadowId, r.Position, r.TreeType⟩

/-! ## SQL statements -/

/-- The first row satisfying the WHERE clause, `none` for `sql.ErrNoRows`. -/
def queryRow {α : Type} (table : List α) (p : α → Bool) : Option α :=
  table.find? p

/-- The statement `DELETE FROM table WHERE p`: the remaining rows and
`RowsAffected`. -/
def execDelete {α : Type} (table : List α) (p : α → Bool) : List α × Nat :=
  (table.filter (fun r => !p r), (table.filter p).length)

/-- The statement `UPDATE table SET ... WHERE p`, where `f` performs the
assignments: the rewritten table and `RowsAffected`, which counts the matched
rows whose value changed. -/
def execUpdate {α : Type} [DecidableEq α] (table : List α) (p : α → Bool) (f : α → α) :
    List α × Nat :=
  (table.map (fun r => if p r then f r else r),
   (table.filter (fun r => p r && decide (f r ≠ r))).length)

/-! ## Repository functions of `db/db.go` -/

/-- WHERE clause `ID = ? AND user_id = ?` on table `meadows`. -/
def meadowKey (meadowId userID : Int) (r : MeadowRow) : Bool :=
  r.ID == meadowId && r.user_id == userID

/-- WHERE clause `ID = ? AND user_id = ?` on table `trees`. -/
def treeKey (treeId userID : Int) (r : TreeRow) : Bool :=
  r.ID == treeId && r.user_id == userID

/-- `FindOneMeadowByIdForUser` (db.go:204): the scanned row, or the zero value
left in `meadow` when the query has no row. -/
def FindOneMeadowByIdForUser (s : Store) (meadowId userID : Int) : Meadow :=
  match queryRow s.meadows (meadowKey meadowId userID) with
  | some r => r.toMeadow
  | none => Meadow.zero

/-- `FindOneTreeById` (db.go:219). -/
def FindOneTreeById (s : Store) (treeId userID : Int) : Tree :=
  match queryRow s.trees (treeKey treeId userID) with
  | some r => r.toTree
  | none => Tree.zero

/-- `deleteTreeOnly` (db.go:400) when its DELETE is executed: deletes the tree
rows of `(treeId, userID)` and reports an error when no row was affected.
The branch for a failing `DB.Exec` is in `deleteTreeOnlyExec`. -/
def deleteTreeOnly (s : Store) (treeId userID : Int) : Store × Option DbError :=
  let res := execDelete s.trees (treeKey treeId userID)
  let s1 := { s with trees := res.1 }
  if res.2 = 0 then (s1, some (DbError.noTreeForUser treeId userID)) else (s1, none)

/-- `InsertOneMeadowForUser` (db.go:261): the INSERT takes `Location`, `Name`,
`Size` and `TreeIds` from the payload, `user_id` from the caller and `ID` from
the counter; the result is `LastInsertId`. -/
def InsertOneMeadowForUser (s : Store) (meadow : Meadow) (userID : Int) : Store × Int :=
  ({ s with
      meadows := s.meadows ++
        [⟨s.nextMeadowId, meadow.Location, meadow.Name, meadow.Size, meadow.TreeIds, userID⟩],
      nextMeadowId := s.nextMeadowId + 1 },
   s.nextMeadowId)

/-- `InsertOneTreeForUser` (db.go:275). -/
def InsertOneTreeForUser (s : Store) (tree : Tree) (userID : Int) : Store × Int :=
  ({ s with
      trees := s.trees ++
        [⟨s.nextTreeId, tree.PlantDate, tree.MeadowId, tree.Position, tree.TreeType, userID⟩],
      nextTreeId := s.nextTreeId + 1 },
   s.nextTreeId)

/-- The list `UpdateMeadowTreeIdsForUser` computes at db.go:296-306: in remove
mode the loop keeps every element different from `treeId`, in add mode
`treeId` is appended. -/
def newTreeIds (treeIds : List Int) (treeId : Int) (shouldDelete : Bool) : List Int :=
  if shouldDelete then treeIds.filter (fun id => id != treeId) else treeIds ++ [treeId]

/-- `UpdateMeadowTreeIdsForUser` (db.go:289): reads the meadow, computes the
new list from the list read, writes it with
`UPDATE meadows SET TreeIds = ? WHERE ID = ? AND user_id = ?` and returns an
error when `RowsAffected` is 0. -/
def UpdateMeadowTreeIdsForUser (s : Store) (meadowId treeId : Int) (shouldDelete : Bool)
    (userID : Int) : Store × Option DbError :=
  let meadow := FindOneMeadowByIdForUser s meadowId userID
  let ids := newTreeIds meadow.TreeIds treeId shouldDelete
  let res := execUpdate s.meadows (meadowKey meadowId userID) (fun r => { r with TreeIds := ids })
  let s1 := { s with meadows := res.1 }
  if res.2 = 0 then (s1, some (DbError.noMeadowFound meadowId)) else (s1, none)

/-- `DeleteOneTreeForUser` (db.go:86). -/
def DeleteOneTreeForUser (s : Store) (treeId userID : Int) : Store × Option DbError :=
  let tree := FindOneTreeById s treeId userID
  if tree.ID = 0 then (s, some (DbError.treeNotFound treeId)) else
  let meadowId := tree.MeadowId
  match deleteTreeOnly s treeId userID with
  | (s1, some err) => (s1, some err)
  | (s1, none) => UpdateMeadowTreeIdsForUser s1 meadowId treeId true userID

/-- The loop of `DeleteOneMeadowForUser` (db.go:64-68): `deleteTreeOnly` on each
listed ID in turn; an error is only printed. -/
def deleteListedTrees (s : Store) (treeIds : List Int) (userID : Int) : Store :=
  treeIds.foldl (fun st treeId => (deleteTreeOnly st treeId userID).1) s

/-- `DeleteOneMeadowForUser` (db.go:56). -/
def DeleteOneMeadowForUser (s : Store) (meadowId userID : Int) : Store × Option DbError :=
  let meadow := FindOneMeadowByIdForUser s meadowId userID
  if meadow.ID = 0 then (s, some (DbError.meadowNotFound meadowId)) else
  let s1 := deleteListedTrees s meadow.TreeIds userID
  let res := execDelete s1.meadows (meadowKey meadowId userID)
  let s2 := { s1 with meadows := res.1 }
  if res.2 = 0 then (s2, some (DbError.noMeadowForUser meadowId userID)) else (s2, none)

/-- `UpdateMeadowForUser` (db.go:328):
`UPDATE meadows SET Location = ?, Name = ?, Size = ? WHERE ID = ? AND user_id = ?`;
`RowsAffected` is only printed. -/
def UpdateMeadowForUser (s : Store) (meadow : Meadow) (userID : Int) : Store :=
  { s with
    meadows := (execUpdate s.meadows (meadowKey meadow.ID userID)
      (fun r => { r with Location := meadow.Location, Name := meadow.Name,
                         Size := meadow.Size })).1 }

/-- A Go slice of `T`: `none` is the nil slice, `some l` a non-nil slice with
the elements `l`. -/
abbrev GoSlice (α : Type) := Option (List α)

/-- The elements of a slice; the nil slice has none. -/
def GoSlice.elems {α : Type} (x : GoSlice α) : List α := x.getD []

/-- Go `append(slice, x)`: appending to the nil slice allocates. -/
def goAppend {α : Type} (x : GoSlice α) (a : α) : GoSlice α := some (GoSlice.elems x ++ [a])

/-- What a call of `FindAllTreesForMeadow` returns, together with whether the
`SELECT ... FROM trees WHERE ID IN (...) AND user_id = ?` statement was sent. -/
structure TreesResult where
  trees : GoSlice Tree
  treeQueryIssued : Bool
deriving DecidableEq, Repr

/-- `FindAllTreesForMeadow` (db.go:164): with an empty `TreeIds` the literal
`[]models.Tree{}` is returned before any tree query is built; otherwise the
rows of the IN-query are appended one by one to the nil slice `trees`. -/
def FindAllTreesForMeadow (s : Store) (meadowId userID : Int) : TreesResult :=
  let meadow := FindOneMeadowByIdForUser s meadowId userID
  if meadow.TreeIds.length = 0 then ⟨some [], false⟩ else
  let rows := s.trees.filter (fun r => decide (r.ID ∈ meadow.TreeIds) && r.user_id == userID)
  ⟨rows.foldl (fun acc r => goAppend acc r.toTree) none, true⟩

/-- `GetTreeImageDb` (db.go:235): the rows of
`SELECT id, path, description, datetime FROM images WHERE tree_id = ? AND user_id = ?`,
each with `img.Path = fmt.Sprintf("/%s", img.Path)` applied to the scanned
copy.  Only a SELECT is sent; the store is not an output. -/
def GetTreeImageDb (s : Store) (treeID userID : Int) : List Image :=
  (s.images.filter (fun r => r.tree_id == treeID && r.user_id == userID)).map
    (fun r => ⟨r.id, "/" ++ r.path, r.description, r.datetime⟩)

/-- `UploadImageDb` (db.go:388):
`INSERT INTO images (path, description, user_id, tree_id)`.  The `datetime`
column is filled by the table's column default, which the sources do not
show; it is the parameter `columnDefault`. -/
def UploadImageDb (s : Store) (path description : String) (userID treeID : Int)
    (columnDefault : String) : Store :=
  { s with
    images := s.images ++ [⟨s.nextImageId, path, description, columnDefault, treeID, userID⟩],
    nextImageId := s.nextImageId + 1 }

/-! ## Handlers of `restApi.go` -/

/-- What a handler leaves behind: the store, the HTTP status it answers with
and the `id` of the JSON body, when it has one. -/
structure HandlerResult where
  store : Store
  status : Nat
  id : Option Int
deriving DecidableEq, Repr

/-- `insertMeadow` (restApi.go:124) on a body that `ShouldBindJSON` accepted. -/
def insertMeadow (s : Store) (meadow : Meadow) (userID : Int) : HandlerResult :=
  let ins := InsertOneMeadowForUser s meadow userID
  ⟨ins.1, 201, some ins.2⟩

/-- `insertTree` (restApi.go:142) on a body that `ShouldBindJSON` accepted:
`InsertOneTreeForUser`, then `UpdateMeadowTreeIdsForUser` in add mode for the
payload's `MeadowId`; status 500 when the second call returns an error. -/
def insertTree (s : Store) (tree : Tree) (userID : Int) : HandlerResult :=
  let ins := InsertOneTreeForUser s tree userID
  match UpdateMeadowTreeIdsForUser ins.1 tree.MeadowId ins.2 false userID with
  | (s2, some _) => ⟨s2, 500, none⟩
  | (s2, none) => ⟨s2, 201, some ins.2⟩

/-! ## Operation sequences and the consistency predicates -/

/-- The four store-changing operations of the consistency protocol. -/
inductive Op where
  | insertMeadow (meadow : Meadow) (userID : Int)
  | insertTree (tree : Tree) (userID : Int)
  | deleteTree (treeId userID : Int)
  | deleteMeadow (meadowId userID : Int)
deriving DecidableEq, Repr

/-- The store after one completed operation. -/
def step (s : Store) : Op → Store
  | Op.insertMeadow meadow userID => (insertMeadow s meadow userID).store
  | Op.insertTree tree userID => (insertTree s tree userID).store
  | Op.deleteTree treeId userID => (DeleteOneTreeForUser s treeId userID).1
  | Op.deleteMeadow meadowId userID => (DeleteOneMeadowForUser s meadowId userID).1

/-- The store after a sequence of operations run one after the other. -/
def run (s : Store) (ops : List Op) : Store := ops.foldl step s

/-- The `TreeIds` invariant of the data model for one meadow row: the listed
IDs are exactly the IDs of the tree rows with this `MeadowId` and this owner
(as sets). -/
def MeadowSynced (s : Store) (m : MeadowRow) : Prop :=
  (∀ id ∈ m.TreeIds, ∃ t ∈ s.trees, t.ID = id ∧ t.MeadowId = m.ID ∧ t.user_id = m.user_id) ∧
  (∀ t ∈ s.trees, t.MeadowId = m.ID → t.user_id = m.user_id → t.ID ∈ m.TreeIds)

/-- Every meadow row satisfies the `TreeIds` invariant. -/
def TreeIdsSynced (s : Store) : Prop := ∀ m ∈ s.meadows, MeadowSynced s m

instance (s : Store) (m : MeadowRow) : Decidable (MeadowSynced s m) := by
  unfold MeadowSynced; infer_instance

instance (s : Store) : Decidable (TreeIdsSynced s) := by
  unfold TreeIdsSynced; infer_instance

/-- The key discipline of table `trees`: `ID` is a key (no two rows share it),
every stored `ID` was issued by the counter, and every `MeadowId` is a meadow
ID that the meadow counter has already issued. -/
def TreeKeysIssued (s : Store) : Prop :=
  (s.trees.map (fun t => t.ID)).Nodup ∧
  (∀ t ∈ s.trees, t.ID < s.nextTreeId) ∧
  (∀ t ∈ s.trees, t.MeadowId < s.nextMeadowId)

instance (s : Store) : Decidable (TreeKeysIssued s) := by
  unfold TreeKeysIssued; infer_instance

/-- An operation whose payload respects the protocol in store `s`: a new meadow
starts with an empty `TreeIds`, and a new tree names a meadow ID that has
already been issued. -/
def Op.Admissible (s : Store) : Op → Prop
  | Op.insertMeadow meadow _ => meadow.TreeIds = []
  | Op.insertTree tree _ => tree.MeadowId < s.nextMeadowId
  | Op.deleteTree _ _ => True
  | Op.deleteMeadow _ _ => True

/-- Every operation of the sequence is admissible in the store it runs on. -/
def AdmissibleSeq : Store → List Op → Prop
  | _, [] => True
  | s, op :: rest => Op.Admissible s op ∧ AdmissibleSeq (step s op) rest

/-- The table after the UPDATE of `UpdateMeadowTreeIdsForUser`. -/
def withTreeIds (meadows : List MeadowRow) (meadowId userID : Int) (ids : List Int) :
    List MeadowRow :=
  meadows.map (fun x => if meadowKey meadowId userID x then { x with TreeIds := ids } else x)

instance (s : Store) (op : Op) : Decidable (Op.Admissible s op) := by
  cases op <;> (simp only [Op.Admissible]; infer_instance)

/-- Admissibility of a sequence is decided operation by operation. -/
def decAdmissibleSeq : (s : Store) → (ops : List Op) → Decidable (AdmissibleSeq s ops)
  | _, [] => isTrue trivial
  | s, op :: rest =>
    match (inferInstance : Decidable (Op.Admissible s op)), decAdmissibleSeq (step s op) rest with
    | isTrue h1, isTrue h2 => isTrue ⟨h1, h2⟩
    | isFalse h1, _ => isFalse (fun h => h1 h.1)
    | _, isFalse h2 => isFalse (fun h => h2 h.2)

instance (s : Store) (ops : List Op) : Decidable (AdmissibleSeq s ops) := decAdmissibleSeq s ops

/-! ## Images: metadata rows, the upload directory and the image handlers -/

/-- The errors `DeleteTreeImage` and the image UPDATE functions build. -/
inductive ImageDbError where
  /-- The message "failed to retrieve image path: ..." (`sql.ErrNoRows`). -/
  | retrievePathFailed
  /-- The message "file does not exist: %s". -/
  | fileDoesNotExist (filePath : String)
  /-- The message "no image found with ID %d and user ID %d". -/
  | noImageForUser (imageID userID : Int)
deriving DecidableEq, Repr

/-- WHERE clause `id = ? AND user_id = ?` on table `images`. -/
def imageKey (imageID userID : Int) (r : ImageRow) : Bool :=
  r.id == imageID && r.user_id == userID

/-- The files on disk: path and content (bytes as numbers below 256).  Paths
are compared as written; directories are not modelled. -/
abbrev FileSystem := List (String × List Nat)

/-- Whether `os.Stat(path)` finds a file (otherwise `os.IsNotExist`). -/
def fileExists (fs : FileSystem) (path : String) : Bool := fs.any (fun f => f.1 == path)

/-- `os.Remove(path)` on an existing file. -/
def osRemove (fs : FileSystem) (path : String) : FileSystem := fs.filter (fun f => f.1 != path)

/-- `os.Create(path)`: the file is created, or truncated when it exists. -/
def osCreate (fs : FileSystem) (path : String) : FileSystem :=
  fs.filter (fun f => f.1 != path) ++ [(path, [])]

/-- Writing `bytes` at the end of the open file `path`. -/
def writeFile (fs : FileSystem) (path : String) (bytes : List Nat) : FileSystem :=
  fs.map (fun f => if f.1 == path then (f.1, f.2 ++ bytes) else f)

/-- The content of the file at `path`, `none` when there is no such file. -/
def readFile (fs : FileSystem) (path : String) : Option (List Nat) :=
  (fs.find? (fun f => f.1 == path)).map (fun f => f.2)

/-- `DeleteTreeImage` (db.go:109): reads the stored path, returns an error
when `os.Stat` reports that the file does not exist, otherwise removes the
file and then the metadata rows.  A file that exists is removed without
error; an `os.Stat` error other than not-exist (a path through a regular
file, a permission fault) is not modelled. -/
def DeleteTreeImage (s : Store) (fs : FileSystem) (imageID userID : Int) :
    Store × FileSystem × Option ImageDbError :=
  match queryRow s.images (imageKey imageID userID) with
  | none => (s, fs, some ImageDbError.retrievePathFailed)
  | some r =>
    let filePath := r.path
    if !fileExists fs filePath then (s, fs, some (ImageDbError.fileDoesNotExist filePath)) else
    let fs1 := osRemove fs filePath
    let res := execDelete s.images (imageKey imageID userID)
    let s1 := { s with images := res.1 }
    if res.2 = 0 then (s1, fs1, some (ImageDbError.noImageForUser imageID userID))
    else (s1, fs1, none)

/-- `UpdateTreeForUser` (db.go:342):
`UPDATE trees SET PlantDate = ?, Position = ?, Type = ? WHERE ID = ? AND user_id = ?`;
`RowsAffected` is only printed. -/
def UpdateTreeForUser (s : Store) (tree : Tree) (userID : Int) : Store :=
  { s with
    trees := (execUpdate s.trees (treeKey tree.ID userID)
      (fun r => { r with PlantDate := tree.PlantDate, Position := tree.Position,
                         TreeType := tree.TreeType })).1 }

/-- An open `multipart.File`: the bytes of the part and the read offset. -/
structure Reader where
  data : List Nat
  pos : Nat
deriving DecidableEq, Repr

/-- Reading a reader to EOF, as `io.ReadAll(file)` and `dst.ReadFrom(file)` do:
the bytes from the current offset on, and the reader left at EOF. -/
def readToEOF (r : Reader) : List Nat × Reader :=
  (r.data.drop r.pos, { r with pos := r.data.length })

/-- `isValidFileType` (imageHandler.go:83): the detected type is looked up in
the map of allowed types.  `detectContentType` stands for
`http.DetectContentType` of the standard library. -/
def isValidFileType (detectContentType : List Nat → String) (file : List Nat) : Bool :=
  let fileType := detectContentType file
  fileType == "image/jpeg" || fileType == "image/jpg" || fileType == "image/png"

/-- `createFile` (imageHandler.go:67): `os.Create` of the file name joined to
`uploadPath`; the result is the file system and the name of the open file.
For a plain file name (no separator, not "." or ".."),
`filepath.Join("./uploads", filename)` is "uploads/" followed by the name;
other names and a failing `os.Create` are not modelled. -/
def createFile (fs : FileSystem) (filename : String) : FileSystem × String :=
  (osCreate fs ("uploads/" ++ filename), "uploads/" ++ filename)

/-- `UploadImageHandler` (imageHandler.go:16) on a request whose `treeImage`
part, when present, has the given file name and bytes: the file system left
behind, the name of the returned `*os.File` (`none` for nil) and the status. -/
def UploadImageHandler (detectContentType : List Nat → String) (fs : FileSystem)
    (treeImage : Option (String × List Nat)) : FileSystem × Option String × Nat :=
  match treeImage with
  | none => (fs, none, 400)
  | some (filename, bytes) =>
    let file : Reader := ⟨bytes, 0⟩
    let read := readToEOF file
    if !isValidFileType detectContentType read.1 then (fs, none, 415) else
    let dst := createFile fs filename
    let copied := readToEOF read.2
    (writeFile dst.1 dst.2 copied.1, some dst.2, 200)

/-- The meadow rows owned by `userID`, in table order. -/
def meadowsOf (s : Store) (userID : Int) : List MeadowRow :=
  s.meadows.filter (fun r => r.user_id == userID)

/-- The tree rows owned by `userID`, in table order. -/
def treesOf (s : Store) (userID : Int) : List TreeRow :=
  s.trees.filter (fun r => r.user_id == userID)

/-- A stand-in for `http.DetectContentType` that knows one rule of the
standard library's sniffing table, the eight-byte PNG signature; every other
input is reported as "application/octet-stream". -/
def detectPngOnly (data : List Nat) : String :=
  if data.take 8 = [137, 80, 78, 71, 13, 10, 26, 10] then "image/png"
  else "application/octet-stream"

/-! ## The meadow cascade with failing statements -/

/-- `deleteTreeOnly` (db.go:400) with the outcome of its `DB.Exec` as an
argument: when the statement fails (`err != nil`, db.go:402-404) no row is
deleted and the wrapped error is returned; when it is executed, the rows of
`(treeId, userID)` are deleted and an error is returned if none was
affected. -/
def deleteTreeOnlyExec (execOk : Bool) (s : Store) (treeId userID : Int) :
    Store × Option DbError :=
  if !execOk then (s, some DbError.deleteTreeFailed) else
  let res := execDelete s.trees (treeKey treeId userID)
  let s1 := { s with trees := res.1 }
  if res.2 = 0 then (s1, some (DbError.noTreeForUser treeId userID)) else (s1, none)

/-- The loop of `DeleteOneMeadowForUser` (db.go:64-68) where `treeExecOk i`
tells whether the DELETE of the loop's `i`-th call is executed; every error
is only printed. -/
def deleteListedTreesExec (treeExecOk : Nat → Bool) (s : Store) (treeIds : List Int)
    (userID : Int) : Store :=
  match treeIds with
  | [] => s
  | treeId :: rest =>
    deleteListedTreesExec (fun i => treeExecOk (i + 1))
      (deleteTreeOnlyExec (treeExecOk 0) s treeId userID).1 rest userID

/-- `DeleteOneMeadowForUser` (db.go:56) with the outcome of every `DB.Exec` as
an argument: `treeExecOk` for the tree deletes of the loop, `meadowExecOk` for
the DELETE of the meadow (db.go:71-74). -/
def DeleteOneMeadowForUserExec (treeExecOk : Nat → Bool) (meadowExecOk : Bool) (s : Store)
    (meadowId userID : Int) : Store × Option DbError :=
  let meadow := FindOneMeadowByIdForUser s meadowId userID
  if meadow.ID = 0 then (s, some (DbError.meadowNotFound meadowId)) else
  let s1 := deleteListedTreesExec treeExecOk s meadow.TreeIds userID
  if !meadowExecOk then (s1, some DbError.deleteMeadowFailed) else
  let res := execDelete s1.meadows (meadowKey meadowId userID)
  let s2 := { s1 with meadows := res.1 }
  if res.2 = 0 then (s2, some (DbError.noMeadowForUser meadowId userID)) else (s2, none)

/-! ## Theorems -/

/-! ## Basic facts about the statements -/

theorem meadowKey_iff (meadowId userID : Int) (r : MeadowRow) :
    meadowKey meadowId userID r = true ↔ r.ID = meadowId ∧ r.user_id = userID := by
  simp [meadowKey]

theorem treeKey_iff (treeId userID : Int) (r : TreeRow) :
    treeKey treeId userID r = true ↔ r.ID = treeId ∧ r.user_id = userID := by
  simp [treeKey]

theorem deleteTreeOnly_store (s : Store) (treeId userID : Int) :
    (deleteTreeOnly s treeId userID).1 =
      { s with trees := s.trees.filter (fun r => !treeKey treeId userID r) } := by
  unfold deleteTreeOnly execDelete
  dsimp only
  split <;> rfl

theorem deleteListedTrees_store (treeIds : List Int) (userID : Int) (s : Store) :
    deleteListedTrees s treeIds userID =
      { s with
        trees := List.filter (fun r => !(decide (r.ID ∈ treeIds) && r.user_id == userID))
          s.trees } := by
  induction treeIds generalizing s with
  | nil => simp [deleteListedTrees]
  | cons a rest ih =>
    have h : deleteListedTrees s (a :: rest) userID =
        deleteListedTrees (deleteTreeOnly s a userID).1 rest userID := by
      simp [deleteListedTrees]
    rw [h, ih, deleteTreeOnly_store]
    simp only [List.filter_filter]
    congr 1
    apply List.filter_congr
    intro r _
    simp only [treeKey, List.mem_cons]
    by_cases h1 : r.ID = a <;> by_cases h2 : r.ID ∈ rest <;> by_cases h3 : r.user_id = userID <;>
      simp [h1, h2, h3]

theorem find_none_of_filter_not {α : Type} (l : List α) (p : α → Bool) :
    (l.filter (fun r => !p r)).find? p = none := by
  simp [List.find?_eq_none, List.mem_filter]

theorem find_map_update {α : Type} (l : List α) (p : α → Bool) (f : α → α)
    (hf : ∀ r, p (f r) = p r) :
    (l.map (fun r => if p r then f r else r)).find? p = (l.find? p).map f := by
  induction l with
  | nil => rfl
  | cons a rest ih =>
    by_cases h : p a = true
    · simp [List.find?, h, hf]
    · simp only [Bool.not_eq_true] at h
      simp [List.find?, h, ih]

theorem FindOneMeadow_after_update (s : Store) (meadowId treeId userID : Int)
    (shouldDelete : Bool) (r : MeadowRow)
    (hr : queryRow s.meadows (meadowKey meadowId userID) = some r) :
    FindOneMeadowByIdForUser (UpdateMeadowTreeIdsForUser s meadowId treeId shouldDelete userID).1
        meadowId userID =
      { r.toMeadow with TreeIds := newTreeIds r.TreeIds treeId shouldDelete } := by
  have hs : (UpdateMeadowTreeIdsForUser s meadowId treeId shouldDelete userID).1.meadows =
      s.meadows.map (fun x => if meadowKey meadowId userID x then
        { x with TreeIds := newTreeIds r.TreeIds treeId shouldDelete } else x) := by
    unfold UpdateMeadowTreeIdsForUser execUpdate FindOneMeadowByIdForUser
    dsimp only
    rw [hr]
    split <;> rfl
  unfold FindOneMeadowByIdForUser queryRow
  rw [hs, find_map_update _ _ _ (fun x => by simp [meadowKey])]
  unfold queryRow at hr
  rw [hr]
  rfl

/-- C7: when no tree row has the given ID and owner, `DeleteOneTreeForUser`
returns the not-found error and the store it leaves is the store it was
given. -/
theorem deleteOneTree_absent_no_effect (s : Store) (treeId userID : Int)
    (h : ∀ r ∈ s.trees, ¬ (r.ID = treeId ∧ r.user_id = userID)) :
    DeleteOneTreeForUser s treeId userID = (s, some (DbError.treeNotFound treeId)) := by
  have hq : queryRow s.trees (treeKey treeId userID) = none := by
    unfold queryRow
    rw [List.find?_eq_none]
    intro r hr hk
    exact h r hr ((treeKey_iff _ _ _).1 hk)
  unfold DeleteOneTreeForUser FindOneTreeById
  rw [hq]
  simp [Tree.zero]

theorem deleteOneTree_absent_no_effect_witness :
    DeleteOneTreeForUser
        ⟨[⟨1, "North Field", "Oak Grove", 25, [1], 7⟩], [⟨1, "2024-03-01", 1, "10,20", "Oak", 7⟩],
          [], 2, 2, 1⟩ 1 8 =
      (⟨[⟨1, "North Field", "Oak Grove", 25, [1], 7⟩], [⟨1, "2024-03-01", 1, "10,20", "Oak", 7⟩],
          [], 2, 2, 1⟩, some (DbError.treeNotFound 1)) :=
  deleteOneTree_absent_no_effect _ 1 8 (by decide)

theorem deleteOneMeadow_store (s : Store) (meadowId userID : Int)
    (h : (FindOneMeadowByIdForUser s meadowId userID).ID ≠ 0) :
    (DeleteOneMeadowForUser s meadowId userID).1 =
      { s with
        meadows := List.filter (fun r => !meadowKey meadowId userID r) s.meadows,
        trees := List.filter (fun r =>
          !(decide (r.ID ∈ (FindOneMeadowByIdForUser s meadowId userID).TreeIds) &&
            r.user_id == userID)) s.trees } := by
  unfold DeleteOneMeadowForUser execDelete
  dsimp only
  rw [if_neg h, deleteListedTrees_store]
  split <;> rfl

theorem filter_ne_of_not_mem (l : List Int) (t : Int) (h : t ∉ l) :
    l.filter (fun id => id != t) = l := by
  rw [List.filter_eq_self]
  intro a ha
  have : a ≠ t := fun e => h (e ▸ ha)
  simpa using this

/-- C4: for a meadow row `r` of a table whose `ID` column is a key, removing a
tree ID that does not occur in `r.TreeIds` leaves the whole store as it was,
and the call returns the error "no meadow found with ID", not nil: the UPDATE
rewrites the row with the value it already holds, so no row counts as
affected. -/
theorem removeAbsent_keeps_store_reports_error (s : Store) (r : MeadowRow) (treeId : Int)
    (hkey : (s.meadows.map (fun m => m.ID)).Nodup) (hr : r ∈ s.meadows)
    (ht : treeId ∉ r.TreeIds) :
    UpdateMeadowTreeIdsForUser s r.ID treeId true r.user_id =
      (s, some (DbError.noMeadowFound r.ID)) := by
  have hk : meadowKey r.ID r.user_id r = true := (meadowKey_iff _ _ _).2 ⟨rfl, rfl⟩
  have huniq : ∀ x ∈ s.meadows, meadowKey r.ID r.user_id x = true → x = r := by
    intro x hx hxk
    exact List.inj_on_of_nodup_map hkey hx hr ((meadowKey_iff _ _ _).1 hxk).1
  obtain ⟨x, hx⟩ := Option.isSome_iff_exists.1
    (List.find?_isSome.2 ⟨r, hr, hk⟩ : (s.meadows.find? (meadowKey r.ID r.user_id)).isSome)
  have hxr : x = r := huniq x (List.mem_of_find?_eq_some hx) (List.find?_some hx)
  subst hxr
  have hsame : ∀ y ∈ s.meadows, (if meadowKey x.ID x.user_id y = true then
      { y with TreeIds := x.TreeIds } else y) = y := by
    intro y hy
    split
    · next hyk => rw [huniq y hy hyk]
    · rfl
  have hmap : List.map (fun y => if meadowKey x.ID x.user_id y = true then
      { y with TreeIds := x.TreeIds } else y) s.meadows = s.meadows := by
    conv_rhs => rw [← List.map_id s.meadows]
    exact List.map_congr_left hsame
  have hcount : (List.filter (fun y => meadowKey x.ID x.user_id y &&
      decide ({ y with TreeIds := x.TreeIds } ≠ y)) s.meadows).length = 0 := by
    rw [List.length_eq_zero, List.filter_eq_nil_iff]
    intro y hy
    by_cases hyk : meadowKey x.ID x.user_id y = true
    · rw [huniq y hy hyk]; simp
    · simp [hyk]
  unfold UpdateMeadowTreeIdsForUser execUpdate FindOneMeadowByIdForUser queryRow
  dsimp only
  rw [hx]
  simp only [MeadowRow.toMeadow, newTreeIds, if_true, filter_ne_of_not_mem _ _ ht]
  rw [hmap, if_pos hcount]

theorem removeAbsent_keeps_store_reports_error_witness :
    UpdateMeadowTreeIdsForUser
        ⟨[⟨1, "North Field", "Oak Grove", 25, [1, 2], 7⟩],
          [⟨1, "2024-03-01", 1, "10,20", "Oak", 7⟩, ⟨2, "2024-03-02", 1, "11,20", "Elm", 7⟩],
          [], 2, 3, 1⟩ 1 3 true 7 =
      (⟨[⟨1, "North Field", "Oak Grove", 25, [1, 2], 7⟩],
          [⟨1, "2024-03-01", 1, "10,20", "Oak", 7⟩, ⟨2, "2024-03-02", 1, "11,20", "Elm", 7⟩],
          [], 2, 3, 1⟩, some (DbError.noMeadowFound 1)) :=
  removeAbsent_keeps_store_reports_error
    ⟨[⟨1, "North Field", "Oak Grove", 25, [1, 2], 7⟩],
      [⟨1, "2024-03-01", 1, "10,20", "Oak", 7⟩, ⟨2, "2024-03-02", 1, "11,20", "Elm", 7⟩],
      [], 2, 3, 1⟩ ⟨1, "North Field", "Oak Grove", 25, [1, 2], 7⟩ 3 (by decide) (by decide)
    (by decide)

/-- C6 counterexample: a meadow created in an empty database with the
caller-supplied `TreeIds` `[5, 5]`; remove mode for tree 5 writes back the
empty list, so the number of occurrences of 5 drops by two, not by one. -/
theorem remove_mode_drops_two_occurrences :
    (FindOneMeadowByIdForUser
        (insertMeadow Store.empty ⟨0, "a", "b", 1, [5, 5]⟩ 7).store 1 7).TreeIds = [5, 5] ∧
    (FindOneMeadowByIdForUser
        (UpdateMeadowTreeIdsForUser (insertMeadow Store.empty ⟨0, "a", "b", 1, [5, 5]⟩ 7).store
          1 5 true 7).1 1 7).TreeIds = [] ∧
    List.count (5 : Int) [] + 1 ≠ List.count (5 : Int) [5, 5] := by
  decide

/-- C6 (amended): for the meadow row `r` that the lookup of `(meadowId, userID)`
finds, add mode leaves the meadow with `r.TreeIds` followed by `treeId` (one
occurrence more) and returns nil; remove mode leaves it with `r.TreeIds`
without any occurrence of `treeId`, every other ID keeping its occurrences
and order. -/
theorem updateTreeIds_appends_or_filters (s : Store) (meadowId treeId userID : Int)
    (r : MeadowRow) (hr : queryRow s.meadows (meadowKey meadowId userID) = some r) :
    (FindOneMeadowByIdForUser (UpdateMeadowTreeIdsForUser s meadowId treeId false userID).1
        meadowId userID).TreeIds = r.TreeIds ++ [treeId] ∧
    List.count treeId (FindOneMeadowByIdForUser
        (UpdateMeadowTreeIdsForUser s meadowId treeId false userID).1 meadowId userID).TreeIds
      = List.count treeId r.TreeIds + 1 ∧
    (UpdateMeadowTreeIdsForUser s meadowId treeId false userID).2 = none ∧
    (FindOneMeadowByIdForUser (UpdateMeadowTreeIdsForUser s meadowId treeId true userID).1
        meadowId userID).TreeIds = r.TreeIds.filter (fun id => id != treeId) ∧
    List.count treeId (FindOneMeadowByIdForUser
        (UpdateMeadowTreeIdsForUser s meadowId treeId true userID).1 meadowId userID).TreeIds
      = 0 := by
  rw [FindOneMeadow_after_update s meadowId treeId userID false r hr,
    FindOneMeadow_after_update s meadowId treeId userID true r hr]
  refine ⟨by simp [newTreeIds], by simp [newTreeIds], ?_, by simp [newTreeIds], ?_⟩
  · have hmem : r ∈ s.meadows := List.mem_of_find?_eq_some hr
    have hk : meadowKey meadowId userID r = true := List.find?_some hr
    have hpos : (List.filter (fun y => meadowKey meadowId userID y &&
        decide ({ y with TreeIds := r.TreeIds ++ [treeId] } ≠ y)) s.meadows).length ≠ 0 := by
      have hin : r ∈ List.filter (fun y => meadowKey meadowId userID y &&
          decide ({ y with TreeIds := r.TreeIds ++ [treeId] } ≠ y)) s.meadows := by
        rw [List.mem_filter]
        refine ⟨hmem, ?_⟩
        have hne : ({ r with TreeIds := r.TreeIds ++ [treeId] } : MeadowRow) ≠ r := by
          intro e
          have := congrArg (fun m => m.TreeIds.length) e
          simp at this
        simp [hk, hne]
      intro hlen
      rw [List.length_eq_zero] at hlen
      rw [hlen] at hin
      exact List.not_mem_nil _ hin
    unfold UpdateMeadowTreeIdsForUser execUpdate FindOneMeadowByIdForUser
    dsimp only
    rw [hr]
    simp only [MeadowRow.toMeadow, newTreeIds]
    simp only [Bool.false_eq_true, if_false]
    rw [if_neg hpos]
  · simp [newTreeIds, List.count_eq_zero, List.mem_filter]

theorem updateTreeIds_appends_or_filters_witness :
    (FindOneMeadowByIdForUser (UpdateMeadowTreeIdsForUser
        ⟨[⟨1, "a", "b", 1, [5, 6, 5], 7⟩], [], [], 2, 1, 1⟩ 1 5 true 7).1 1 7).TreeIds
      = [6] :=
  (updateTreeIds_appends_or_filters ⟨[⟨1, "a", "b", 1, [5, 6, 5], 7⟩], [], [], 2, 1, 1⟩
    1 5 7 ⟨1, "a", "b", 1, [5, 6, 5], 7⟩ (by decide)).2.2.2.1

theorem find_filter_of_imp {α : Type} (l : List α) (p q : α → Bool)
    (h : ∀ x, p x = true → q x = true) : (l.filter q).find? p = l.find? p := by
  induction l with
  | nil => rfl
  | cons a rest ih =>
    by_cases hq : q a = true
    · rw [List.filter_cons_of_pos hq, List.find?_cons, List.find?_cons, ih]
    · have hp : p a = false := by
        cases hpa : p a with
        | false => rfl
        | true => exact absurd (h a hpa) hq
      rw [List.filter_cons_of_neg hq, List.find?_cons, hp, ih]

theorem find_meadowKey_filter_owner (l : List MeadowRow) (id A : Int) :
    (l.filter (fun r => r.user_id == A)).find? (meadowKey id A) = l.find? (meadowKey id A) :=
  find_filter_of_imp l _ _ (fun x hx => by simpa using ((meadowKey_iff _ _ _).1 hx).2)

theorem find_treeKey_filter_owner (l : List TreeRow) (id A : Int) :
    (l.filter (fun r => r.user_id == A)).find? (treeKey id A) = l.find? (treeKey id A) :=
  find_filter_of_imp l _ _ (fun x hx => by simpa using ((treeKey_iff _ _ _).1 hx).2)

/-- C5: in a store whose `ID` columns are keys, a lookup by user `A` of the ID
of a meadow or tree row owned by another user `B` returns the zero-valued
entity, which is also what a lookup of an ID that no row carries returns; and
a lookup by `A` gives the same result in any two stores that hold the same
rows of `A`. -/
theorem lookup_is_owner_scoped (s : Store) (A B : Int) (hAB : A ≠ B)
    (hmk : (s.meadows.map (fun m => m.ID)).Nodup) (htk : (s.trees.map (fun t => t.ID)).Nodup) :
    (∀ m ∈ s.meadows, m.user_id = B → FindOneMeadowByIdForUser s m.ID A = Meadow.zero) ∧
    (∀ t ∈ s.trees, t.user_id = B → FindOneTreeById s t.ID A = Tree.zero) ∧
    (∀ (s0 : Store) (id : Int), (∀ m ∈ s0.meadows, m.ID ≠ id) →
      FindOneMeadowByIdForUser s0 id A = Meadow.zero) ∧
    (∀ (s0 : Store) (id : Int), (∀ t ∈ s0.trees, t.ID ≠ id) →
      FindOneTreeById s0 id A = Tree.zero) ∧
    (∀ (s1 s2 : Store) (id : Int),
      s1.meadows.filter (fun r => r.user_id == A) = s2.meadows.filter (fun r => r.user_id == A) →
      FindOneMeadowByIdForUser s1 id A = FindOneMeadowByIdForUser s2 id A) ∧
    (∀ (s1 s2 : Store) (id : Int),
      s1.trees.filter (fun r => r.user_id == A) = s2.trees.filter (fun r => r.user_id == A) →
      FindOneTreeById s1 id A = FindOneTreeById s2 id A) := by
  refine ⟨?_, ?_, ?_, ?_, ?_, ?_⟩
  · intro m hm hB
    have hq : s.meadows.find? (meadowKey m.ID A) = none := by
      rw [List.find?_eq_none]
      intro x hx hk
      obtain ⟨h1, h2⟩ := (meadowKey_iff _ _ _).1 hk
      have hxm : x = m := List.inj_on_of_nodup_map hmk hx hm h1
      exact hAB (by rw [← h2, hxm, hB])
    unfold FindOneMeadowByIdForUser queryRow
    rw [hq]
  · intro t ht hB
    have hq : s.trees.find? (treeKey t.ID A) = none := by
      rw [List.find?_eq_none]
      intro x hx hk
      obtain ⟨h1, h2⟩ := (treeKey_iff _ _ _).1 hk
      have hxt : x = t := List.inj_on_of_nodup_map htk hx ht h1
      exact hAB (by rw [← h2, hxt, hB])
    unfold FindOneTreeById queryRow
    rw [hq]
  · intro s0 id h
    have hq : s0.meadows.find? (meadowKey id A) = none := by
      rw [List.find?_eq_none]
      intro x hx hk
      exact h x hx ((meadowKey_iff _ _ _).1 hk).1
    unfold FindOneMeadowByIdForUser queryRow
    rw [hq]
  · intro s0 id h
    have hq : s0.trees.find? (treeKey id A) = none := by
      rw [List.find?_eq_none]
      intro x hx hk
      exact h x hx ((treeKey_iff _ _ _).1 hk).1
    unfold FindOneTreeById queryRow
    rw [hq]
  · intro s1 s2 id h
    unfold FindOneMeadowByIdForUser queryRow
    rw [← find_meadowKey_filter_owner s1.meadows, ← find_meadowKey_filter_owner s2.meadows, h]
  · intro s1 s2 id h
    unfold FindOneTreeById queryRow
    rw [← find_treeKey_filter_owner s1.trees, ← find_treeKey_filter_owner s2.trees, h]

theorem lookup_is_owner_scoped_witness :
    FindOneMeadowByIdForUser
        ⟨[⟨1, "North Field", "Oak Grove", 25, [1], 8⟩], [⟨1, "2024-03-01", 1, "10,20", "Oak", 8⟩],
          [], 2, 2, 1⟩ 1 7 = Meadow.zero ∧
    FindOneTreeById
        ⟨[⟨1, "North Field", "Oak Grove", 25, [1], 8⟩], [⟨1, "2024-03-01", 1, "10,20", "Oak", 8⟩],
          [], 2, 2, 1⟩ 1 7 = Tree.zero :=
  ⟨(lookup_is_owner_scoped
      ⟨[⟨1, "North Field", "Oak Grove", 25, [1], 8⟩], [⟨1, "2024-03-01", 1, "10,20", "Oak", 8⟩],
        [], 2, 2, 1⟩ 7 8 (by decide) (by decide) (by decide)).1
      ⟨1, "North Field", "Oak Grove", 25, [1], 8⟩ (by decide) rfl,
   (lookup_is_owner_scoped
      ⟨[⟨1, "North Field", "Oak Grove", 25, [1], 8⟩], [⟨1, "2024-03-01", 1, "10,20", "Oak", 8⟩],
        [], 2, 2, 1⟩ 7 8 (by decide) (by decide) (by decide)).2.1
      ⟨1, "2024-03-01", 1, "10,20", "Oak", 8⟩ (by decide) rfl⟩

theorem foldl_goAppend {α β : Type} (f : α → β) (rows : List α) (acc : GoSlice β) :
    GoSlice.elems (rows.foldl (fun a r => goAppend a (f r)) acc) =
      GoSlice.elems acc ++ rows.map f := by
  induction rows generalizing acc with
  | nil => simp
  | cons a rest ih =>
    rw [List.foldl_cons, ih]
    simp [goAppend, GoSlice.elems]

/-- C8: `FindAllTreesForMeadow` returns the tree rows whose `ID` is listed in
the `TreeIds` of the meadow found for `(meadowId, userID)` and whose owner is
`userID`, each once and nothing else; when that `TreeIds` is empty the result
is the empty non-nil slice and the tree query is not sent. -/
theorem findAllTrees_exact (s : Store) (meadowId userID : Int) :
    GoSlice.elems (FindAllTreesForMeadow s meadowId userID).trees =
      (s.trees.filter (fun r =>
        decide (r.ID ∈ (FindOneMeadowByIdForUser s meadowId userID).TreeIds) &&
          r.user_id == userID)).map TreeRow.toTree ∧
    (∀ t, t ∈ GoSlice.elems (FindAllTreesForMeadow s meadowId userID).trees ↔
      ∃ r ∈ s.trees, r.ID ∈ (FindOneMeadowByIdForUser s meadowId userID).TreeIds ∧
        r.user_id = userID ∧ r.toTree = t) ∧
    ((FindOneMeadowByIdForUser s meadowId userID).TreeIds = [] →
      FindAllTreesForMeadow s meadowId userID = ⟨some [], false⟩) := by
  have h1 : GoSlice.elems (FindAllTreesForMeadow s meadowId userID).trees =
      (s.trees.filter (fun r =>
        decide (r.ID ∈ (FindOneMeadowByIdForUser s meadowId userID).TreeIds) &&
          r.user_id == userID)).map TreeRow.toTree := by
    unfold FindAllTreesForMeadow
    dsimp only
    split
    · next h0 =>
      rw [List.length_eq_zero] at h0
      simp [h0, GoSlice.elems]
    · rw [foldl_goAppend]
      simp [GoSlice.elems]
  refine ⟨h1, ?_, ?_⟩
  · intro t
    rw [h1, List.mem_map]
    constructor
    · rintro ⟨r, hr, rfl⟩
      rw [List.mem_filter] at hr
      have := hr.2
      simp only [Bool.and_eq_true, decide_eq_true_eq, beq_iff_eq] at this
      exact ⟨r, hr.1, this.1, this.2, rfl⟩
    · rintro ⟨r, hr, hid, hu, rfl⟩
      refine ⟨r, ?_, rfl⟩
      rw [List.mem_filter]
      exact ⟨hr, by simp [hid, hu]⟩
  · intro h0
    unfold FindAllTreesForMeadow
    dsimp only
    rw [h0]
    rfl

/-- C9: every image row stored for `(treeID, userID)` with path `p` is
returned with `Path` equal to "/" followed by `p`: the returned path begins
with '/', and with exactly one '/' when `p` does not begin with one itself;
every returned entry arises this way from a stored row. -/
theorem getTreeImage_prepends_separator (s : Store) (treeID userID : Int) (r : ImageRow)
    (hr : r ∈ s.images) (ht : r.tree_id = treeID) (hu : r.user_id = userID) :
    (⟨r.id, "/" ++ r.path, r.description, r.datetime⟩ : Image) ∈ GetTreeImageDb s treeID userID ∧
    ("/" ++ r.path).data = '/' :: r.path.data ∧
    (r.path.data.head? ≠ some '/' → ("/" ++ r.path).data.tail.head? ≠ some '/') ∧
    (∀ img ∈ GetTreeImageDb s treeID userID, ∃ r0 ∈ s.images,
      r0.tree_id = treeID ∧ r0.user_id = userID ∧ img.ID = r0.id ∧ img.Path = "/" ++ r0.path ∧
      img.Description = r0.description ∧ img.Datetime = r0.datetime) := by
  have hd : ("/" ++ r.path).data = '/' :: r.path.data := by
    rw [String.data_append]; rfl
  refine ⟨?_, hd, ?_, ?_⟩
  · unfold GetTreeImageDb
    rw [List.mem_map]
    refine ⟨r, ?_, rfl⟩
    rw [List.mem_filter]
    exact ⟨hr, by simp [ht, hu]⟩
  · intro h
    rw [hd]
    exact h
  · intro img himg
    unfold GetTreeImageDb at himg
    rw [List.mem_map] at himg
    obtain ⟨r0, hr0, rfl⟩ := himg
    rw [List.mem_filter] at hr0
    have := hr0.2
    simp only [Bool.and_eq_true, beq_iff_eq] at this
    exact ⟨r0, hr0.1, this.1, this.2, rfl, rfl, rfl, rfl⟩

theorem getTreeImage_prepends_separator_witness :
    (⟨1, "/uploads/img1.jpg", "first", "2024-03-01"⟩ : Image) ∈
      GetTreeImageDb (UploadImageDb Store.empty "uploads/img1.jpg" "first" 7 1 "2024-03-01") 1 7 :=
  (getTreeImage_prepends_separator
    (UploadImageDb Store.empty "uploads/img1.jpg" "first" 7 1 "2024-03-01") 1 7
    ⟨1, "uploads/img1.jpg", "first", "2024-03-01", 1, 7⟩ (by decide) rfl rfl).1

/-- C10: `UpdateMeadowForUser` leaves the trees, the images and the counters as
they were and keeps the meadow table row for row: each row keeps its `ID`,
`TreeIds` and owner; a row that does not match `(payload.ID, userID)` is
unchanged; a matching row takes `Location`, `Name` and `Size` from the
payload.  The payload's `TreeIds` is not read. -/
theorem updateMeadow_frame (s : Store) (meadow : Meadow) (userID : Int) :
    (UpdateMeadowForUser s meadow userID).trees = s.trees ∧
    (UpdateMeadowForUser s meadow userID).images = s.images ∧
    (UpdateMeadowForUser s meadow userID).nextMeadowId = s.nextMeadowId ∧
    (UpdateMeadowForUser s meadow userID).nextTreeId = s.nextTreeId ∧
    (UpdateMeadowForUser s meadow userID).nextImageId = s.nextImageId ∧
    List.Forall₂ (fun old new =>
        new.ID = old.ID ∧ new.TreeIds = old.TreeIds ∧ new.user_id = old.user_id ∧
        (¬ (old.ID = meadow.ID ∧ old.user_id = userID) → new = old) ∧
        (old.ID = meadow.ID ∧ old.user_id = userID →
          new.Location = meadow.Location ∧ new.Name = meadow.Name ∧ new.Size = meadow.Size))
      s.meadows (UpdateMeadowForUser s meadow userID).meadows ∧
    (∀ ids : List Int, UpdateMeadowForUser s { meadow with TreeIds := ids } userID =
      UpdateMeadowForUser s meadow userID) := by
  refine ⟨rfl, rfl, rfl, rfl, rfl, ?_, fun _ => rfl⟩
  unfold UpdateMeadowForUser execUpdate
  dsimp only
  rw [List.forall₂_map_right_iff, List.forall₂_same]
  intro x _
  by_cases hk : meadowKey meadow.ID userID x = true
  · have hk2 := (meadowKey_iff _ _ _).1 hk
    simp [hk, hk2]
  · have hk2 : ¬ (x.ID = meadow.ID ∧ x.user_id = userID) := fun h => hk ((meadowKey_iff _ _ _).2 h)
    simp [hk, hk2]

theorem update_store (s : Store) (meadowId treeId userID : Int) (shouldDelete : Bool) :
    (UpdateMeadowTreeIdsForUser s meadowId treeId shouldDelete userID).1 =
      { s with meadows := (withTreeIds s.meadows meadowId userID
          (newTreeIds (FindOneMeadowByIdForUser s meadowId userID).TreeIds treeId
            shouldDelete)) } := by
  unfold UpdateMeadowTreeIdsForUser execUpdate withTreeIds
  dsimp only
  split <;> rfl

theorem update_nil_of_changed (s : Store) (meadowId treeId userID : Int) (shouldDelete : Bool)
    (r : MeadowRow) (hr : queryRow s.meadows (meadowKey meadowId userID) = some r)
    (hne : newTreeIds r.TreeIds treeId shouldDelete ≠ r.TreeIds) :
    (UpdateMeadowTreeIdsForUser s meadowId treeId shouldDelete userID).2 = none := by
  have hmem : r ∈ s.meadows := List.mem_of_find?_eq_some hr
  have hk : meadowKey meadowId userID r = true := List.find?_some hr
  have hpos : (List.filter (fun y => meadowKey meadowId userID y &&
      decide ({ y with TreeIds := newTreeIds r.TreeIds treeId shouldDelete } ≠ y))
        s.meadows).length ≠ 0 := by
    have hin : r ∈ List.filter (fun y => meadowKey meadowId userID y &&
        decide ({ y with TreeIds := newTreeIds r.TreeIds treeId shouldDelete } ≠ y))
          s.meadows := by
      rw [List.mem_filter]
      refine ⟨hmem, ?_⟩
      have hne2 : ({ r with TreeIds := newTreeIds r.TreeIds treeId shouldDelete } : MeadowRow)
          ≠ r := fun e => hne (congrArg (fun m => m.TreeIds) e)
      simp [hk, hne2]
    intro hlen
    rw [List.length_eq_zero] at hlen
    rw [hlen] at hin
    exact List.not_mem_nil _ hin
  unfold UpdateMeadowTreeIdsForUser execUpdate FindOneMeadowByIdForUser
  dsimp only
  rw [hr]
  simp only [MeadowRow.toMeadow]
  rw [if_neg hpos]

theorem find_appended_tree (trees : List TreeRow) (new : TreeRow)
    (h : ∀ t ∈ trees, t.ID ≠ new.ID) :
    (trees ++ [new]).find? (treeKey new.ID new.user_id) = some new := by
  have hnone : trees.find? (treeKey new.ID new.user_id) = none := by
    rw [List.find?_eq_none]
    intro x hx hk
    exact h x hx ((treeKey_iff _ _ _).1 hk).1
  rw [List.find?_append, hnone]
  simp [List.find?, treeKey]

theorem delete_appended_tree (trees : List TreeRow) (new : TreeRow)
    (h : ∀ t ∈ trees, t.ID ≠ new.ID) :
    (trees ++ [new]).filter (fun r => !treeKey new.ID new.user_id r) = trees ∧
    ((trees ++ [new]).filter (treeKey new.ID new.user_id)).length = 1 := by
  have h1 : trees.filter (fun r => !treeKey new.ID new.user_id r) = trees := by
    rw [List.filter_eq_self]
    intro x hx
    have : treeKey new.ID new.user_id x = false := by
      cases hk : treeKey new.ID new.user_id x with
      | false => rfl
      | true => exact absurd ((treeKey_iff _ _ _).1 hk).1 (h x hx)
    simp [this]
  have h2 : trees.filter (treeKey new.ID new.user_id) = [] := by
    rw [List.filter_eq_nil_iff]
    intro x hx hk
    exact h x hx ((treeKey_iff _ _ _).1 hk).1
  have hk : treeKey new.ID new.user_id new = true := (treeKey_iff _ _ _).2 ⟨rfl, rfl⟩
  constructor
  · rw [List.filter_append, h1]
    simp [List.filter, hk]
  · rw [List.filter_append, h2]
    simp [List.filter, hk]

theorem find_withTreeIds (meadows : List MeadowRow) (meadowId userID : Int) (ids : List Int) :
    (withTreeIds meadows meadowId userID ids).find? (meadowKey meadowId userID) =
      (meadows.find? (meadowKey meadowId userID)).map (fun x => { x with TreeIds := ids }) :=
  find_map_update meadows _ _ (fun x => by simp [meadowKey])

theorem insertTree_result (s : Store) (tree : Tree) (userID : Int) (r : MeadowRow)
    (hr : queryRow s.meadows (meadowKey tree.MeadowId userID) = some r) :
    insertTree s tree userID =
      ⟨{ s with
          trees := s.trees ++
            [⟨s.nextTreeId, tree.PlantDate, tree.MeadowId, tree.Position, tree.TreeType, userID⟩],
          nextTreeId := s.nextTreeId + 1,
          meadows := (withTreeIds s.meadows tree.MeadowId userID (r.TreeIds ++ [s.nextTreeId])) },
        201, some s.nextTreeId⟩ := by
  have hr1 : queryRow (InsertOneTreeForUser s tree userID).1.meadows
      (meadowKey tree.MeadowId userID) = some r := hr
  have hne : newTreeIds r.TreeIds (InsertOneTreeForUser s tree userID).2 false ≠ r.TreeIds := by
    intro e
    have := congrArg List.length e
    simp [newTreeIds] at this
  have h2 := update_nil_of_changed _ tree.MeadowId (InsertOneTreeForUser s tree userID).2 userID
    false r hr1 hne
  have h1 := update_store (InsertOneTreeForUser s tree userID).1 tree.MeadowId
    (InsertOneTreeForUser s tree userID).2 userID false
  have hf : (FindOneMeadowByIdForUser (InsertOneTreeForUser s tree userID).1 tree.MeadowId
      userID).TreeIds = r.TreeIds := by
    unfold FindOneMeadowByIdForUser
    rw [hr1]
    rfl
  rw [hf] at h1
  have hU : UpdateMeadowTreeIdsForUser (InsertOneTreeForUser s tree userID).1 tree.MeadowId
      (InsertOneTreeForUser s tree userID).2 false userID = (_, none) := Prod.ext h1 h2
  simp only [insertTree, hU]
  rfl

/-- C2 counterexample: a meadow created with the caller-supplied `TreeIds`
`[1]` in an empty database; inserting a tree for it (which receives ID 1) and
deleting that tree leaves `TreeIds` empty, not `[1]`. -/
theorem insert_delete_loses_listed_id :
    (FindOneMeadowByIdForUser (insertMeadow Store.empty ⟨0, "a", "b", 1, [1]⟩ 7).store 1 7).TreeIds
        = [1] ∧
    (insertTree (insertMeadow Store.empty ⟨0, "a", "b", 1, [1]⟩ 7).store
        ⟨0, "2024-03-01", 1, "10,20", "Oak"⟩ 7).id = some 1 ∧
    (FindOneMeadowByIdForUser (DeleteOneTreeForUser
        (insertTree (insertMeadow Store.empty ⟨0, "a", "b", 1, [1]⟩ 7).store
          ⟨0, "2024-03-01", 1, "10,20", "Oak"⟩ 7).store 1 7).1 1 7).TreeIds = [] := by
  decide

/-- C2 (amended): in a store whose tree IDs were all issued by the counter
(and the counter is not 0), for the meadow row `r` found for the payload's
`MeadowId` and the caller: `insertTree` answers 201 with the new ID, deleting
that ID returns nil, and the meadow's `TreeIds` is then the former list
without any occurrence of the new ID; it is the former list itself whenever
the new ID did not occur in it. -/
theorem insert_then_delete_tree (s : Store) (tree : Tree) (userID : Int) (r : MeadowRow)
    (hr : queryRow s.meadows (meadowKey tree.MeadowId userID) = some r)
    (hissued : ∀ t ∈ s.trees, t.ID < s.nextTreeId) (hpos : s.nextTreeId ≠ 0) :
    (insertTree s tree userID).status = 201 ∧
    (insertTree s tree userID).id = some s.nextTreeId ∧
    (DeleteOneTreeForUser (insertTree s tree userID).store s.nextTreeId userID).2 = none ∧
    (FindOneMeadowByIdForUser
        (DeleteOneTreeForUser (insertTree s tree userID).store s.nextTreeId userID).1
        tree.MeadowId userID).TreeIds = r.TreeIds.filter (fun id => id != s.nextTreeId) ∧
    (s.nextTreeId ∉ r.TreeIds →
      (FindOneMeadowByIdForUser
        (DeleteOneTreeForUser (insertTree s tree userID).store s.nextTreeId userID).1
        tree.MeadowId userID).TreeIds = r.TreeIds) ∧
    (DeleteOneTreeForUser (insertTree s tree userID).store s.nextTreeId userID).1.trees
      = s.trees := by
  have hne : ∀ t ∈ s.trees, t.ID ≠ s.nextTreeId := fun t ht => ne_of_lt (hissued t ht)
  rw [insertTree_result s tree userID r hr]
  dsimp only
  -- the store after the tree row is deleted again
  have hfind := find_appended_tree s.trees
    ⟨s.nextTreeId, tree.PlantDate, tree.MeadowId, tree.Position, tree.TreeType, userID⟩ hne
  have hdel := delete_appended_tree s.trees
    ⟨s.nextTreeId, tree.PlantDate, tree.MeadowId, tree.Position, tree.TreeType, userID⟩ hne
  dsimp only at hfind hdel
  have hD : DeleteOneTreeForUser
      { s with
        trees := s.trees ++
          [⟨s.nextTreeId, tree.PlantDate, tree.MeadowId, tree.Position, tree.TreeType, userID⟩],
        nextTreeId := s.nextTreeId + 1,
        meadows := (withTreeIds s.meadows tree.MeadowId userID (r.TreeIds ++ [s.nextTreeId])) }
      s.nextTreeId userID =
      UpdateMeadowTreeIdsForUser
        { s with
          nextTreeId := s.nextTreeId + 1,
          meadows := (withTreeIds s.meadows tree.MeadowId userID
            (r.TreeIds ++ [s.nextTreeId])) }
        tree.MeadowId s.nextTreeId true userID := by
    unfold DeleteOneTreeForUser FindOneTreeById deleteTreeOnly execDelete queryRow
    dsimp only
    rw [hfind, hdel.1, hdel.2]
    simp [TreeRow.toTree, hpos]
  rw [hD]
  have hq : queryRow (withTreeIds s.meadows tree.MeadowId userID (r.TreeIds ++ [s.nextTreeId]))
      (meadowKey tree.MeadowId userID) = some { r with TreeIds := r.TreeIds ++ [s.nextTreeId] } := by
    unfold queryRow at hr ⊢
    rw [find_withTreeIds, hr]
    rfl
  have hfilter : newTreeIds (r.TreeIds ++ [s.nextTreeId]) s.nextTreeId true =
      r.TreeIds.filter (fun id => id != s.nextTreeId) := by
    simp [newTreeIds, List.filter_append]
  have hafter := FindOneMeadow_after_update
    { s with
      nextTreeId := s.nextTreeId + 1,
      meadows := (withTreeIds s.meadows tree.MeadowId userID (r.TreeIds ++ [s.nextTreeId])) }
    tree.MeadowId s.nextTreeId userID true _ hq
  rw [hafter]
  dsimp only
  rw [hfilter]
  refine ⟨rfl, rfl, ?_, rfl, fun h => filter_ne_of_not_mem _ _ h, ?_⟩
  · apply update_nil_of_changed _ _ _ _ _ _ hq
    dsimp only
    rw [hfilter]
    intro e
    have hin : s.nextTreeId ∈ r.TreeIds ++ [s.nextTreeId] := by simp
    rw [← e, List.mem_filter] at hin
    simpa using hin.2
  · rw [update_store]

theorem insert_then_delete_tree_witness :
    (FindOneMeadowByIdForUser
        (DeleteOneTreeForUser (insertTree
          ⟨[⟨1, "North Field", "Oak Grove", 25, [1], 7⟩], [⟨1, "2024-03-01", 1, "10,20", "Oak", 7⟩],
            [], 2, 2, 1⟩ ⟨0, "2024-04-01", 1, "12,20", "Elm"⟩ 7).store 2 7).1 1 7).TreeIds = [1] :=
  (insert_then_delete_tree
    ⟨[⟨1, "North Field", "Oak Grove", 25, [1], 7⟩], [⟨1, "2024-03-01", 1, "10,20", "Oak", 7⟩],
      [], 2, 2, 1⟩ ⟨0, "2024-04-01", 1, "12,20", "Elm"⟩ 7
    ⟨1, "North Field", "Oak Grove", 25, [1], 7⟩ (by decide) (by decide) (by decide)).2.2.2.2.1
    (by decide)

theorem insertTree_store (s : Store) (tree : Tree) (userID : Int) :
    (insertTree s tree userID).store =
      { s with
        trees := s.trees ++
          [⟨s.nextTreeId, tree.PlantDate, tree.MeadowId, tree.Position, tree.TreeType, userID⟩],
        nextTreeId := s.nextTreeId + 1,
        meadows := (withTreeIds s.meadows tree.MeadowId userID
          ((FindOneMeadowByIdForUser s tree.MeadowId userID).TreeIds ++ [s.nextTreeId])) } := by
  have h : (insertTree s tree userID).store =
      (UpdateMeadowTreeIdsForUser (InsertOneTreeForUser s tree userID).1 tree.MeadowId
        (InsertOneTreeForUser s tree userID).2 false userID).1 := by
    simp only [insertTree]
    split
    · next h => rw [h]
    · next h => rw [h]
  rw [h, update_store]
  rfl

theorem found_of_tree_id_ne_zero (s : Store) (treeId userID : Int)
    (h : (FindOneTreeById s treeId userID).ID ≠ 0) :
    ∃ t, queryRow s.trees (treeKey treeId userID) = some t ∧
      FindOneTreeById s treeId userID = t.toTree := by
  unfold FindOneTreeById at h ⊢
  cases hq : queryRow s.trees (treeKey treeId userID) with
  | none => rw [hq] at h; exact absurd rfl h
  | some t => exact ⟨t, rfl, rfl⟩

theorem found_of_meadow_id_ne_zero (s : Store) (meadowId userID : Int)
    (h : (FindOneMeadowByIdForUser s meadowId userID).ID ≠ 0) :
    ∃ r, queryRow s.meadows (meadowKey meadowId userID) = some r ∧
      FindOneMeadowByIdForUser s meadowId userID = r.toMeadow := by
  unfold FindOneMeadowByIdForUser at h ⊢
  cases hq : queryRow s.meadows (meadowKey meadowId userID) with
  | none => rw [hq] at h; exact absurd rfl h
  | some r => exact ⟨r, rfl, rfl⟩

theorem deleteOneTree_store (s : Store) (treeId userID : Int)
    (h : (FindOneTreeById s treeId userID).ID ≠ 0) :
    (DeleteOneTreeForUser s treeId userID).1 =
      { s with
        trees := List.filter (fun r => !treeKey treeId userID r) s.trees,
        meadows := (withTreeIds s.meadows (FindOneTreeById s treeId userID).MeadowId userID
          (List.filter (fun id => id != treeId)
            (FindOneMeadowByIdForUser s (FindOneTreeById s treeId userID).MeadowId
              userID).TreeIds)) } := by
  obtain ⟨t, hq, _⟩ := found_of_tree_id_ne_zero s treeId userID h
  have hpos : (List.filter (treeKey treeId userID) s.trees).length ≠ 0 := by
    have hin : t ∈ List.filter (treeKey treeId userID) s.trees :=
      List.mem_filter.2 ⟨List.mem_of_find?_eq_some hq, List.find?_some hq⟩
    intro hlen
    rw [List.length_eq_zero] at hlen
    rw [hlen] at hin
    exact List.not_mem_nil _ hin
  have hdel : deleteTreeOnly s treeId userID =
      ({ s with trees := List.filter (fun r => !treeKey treeId userID r) s.trees }, none) := by
    unfold deleteTreeOnly execDelete
    dsimp only
    rw [if_neg hpos]
  unfold DeleteOneTreeForUser
  dsimp only
  rw [if_neg h, hdel]
  dsimp only
  rw [update_store]
  rfl

theorem mem_withTreeIds (meadows : List MeadowRow) (meadowId userID : Int) (ids : List Int)
    (m' : MeadowRow) (h : m' ∈ withTreeIds meadows meadowId userID ids) :
    (m' ∈ meadows ∧ meadowKey meadowId userID m' = false) ∨
    (∃ m ∈ meadows, meadowKey meadowId userID m = true ∧ m' = { m with TreeIds := ids }) := by
  unfold withTreeIds at h
  rw [List.mem_map] at h
  obtain ⟨m, hm, rfl⟩ := h
  cases hk : meadowKey meadowId userID m with
  | false => left; simp [hk, hm]
  | true => right; exact ⟨m, hm, hk, by simp [hk]⟩

theorem first_match_of_key (meadows : List MeadowRow) (meadowId userID : Int) (m : MeadowRow)
    (hm : m ∈ meadows) (hk : meadowKey meadowId userID m = true) :
    ∃ r, queryRow meadows (meadowKey meadowId userID) = some r ∧ r ∈ meadows ∧
      r.ID = meadowId ∧ r.user_id = userID := by
  obtain ⟨r, hr⟩ := Option.isSome_iff_exists.1
    (List.find?_isSome.2 ⟨m, hm, hk⟩ : (meadows.find? (meadowKey meadowId userID)).isSome)
  have := (meadowKey_iff _ _ _).1 (List.find?_some hr)
  exact ⟨r, hr, List.mem_of_find?_eq_some hr, this.1, this.2⟩

theorem synced_insertMeadow (s : Store) (meadow : Meadow) (userID : Int)
    (hs : TreeIdsSynced s) (hk : TreeKeysIssued s) (hadm : meadow.TreeIds = []) :
    TreeIdsSynced (insertMeadow s meadow userID).store ∧
      TreeKeysIssued (insertMeadow s meadow userID).store := by
  obtain ⟨hnd, hid, hmid⟩ := hk
  constructor
  · intro m hm
    simp only [insertMeadow, InsertOneMeadowForUser, List.mem_append, List.mem_singleton] at hm
    rcases hm with hm | rfl
    · exact hs m hm
    · constructor
      · intro id hidm
        rw [hadm] at hidm
        exact absurd hidm (List.not_mem_nil _)
      · intro t ht hmt _
        exact absurd hmt (ne_of_lt (hmid t ht))
  · refine ⟨hnd, hid, ?_⟩
    intro t ht
    have := hmid t ht
    simp only [insertMeadow, InsertOneMeadowForUser]
    omega

theorem synced_insertTree (s : Store) (tree : Tree) (userID : Int)
    (hs : TreeIdsSynced s) (hk : TreeKeysIssued s) (hadm : tree.MeadowId < s.nextMeadowId) :
    TreeIdsSynced (insertTree s tree userID).store ∧
      TreeKeysIssued (insertTree s tree userID).store := by
  obtain ⟨hnd, hid, hmid⟩ := hk
  rw [insertTree_store]
  constructor
  · intro m' hm'
    dsimp only at hm'
    rcases mem_withTreeIds _ _ _ _ _ hm' with ⟨hm, hnk⟩ | ⟨m, hm, hkm, rfl⟩
    · -- a meadow the UPDATE does not match
      obtain ⟨h1, h2⟩ := hs m' hm
      constructor
      · intro id hidm
        obtain ⟨t, ht, e⟩ := h1 id hidm
        exact ⟨t, List.mem_append_left _ ht, e⟩
      · intro t ht hmt hut
        dsimp only at ht
        rw [List.mem_append, List.mem_singleton] at ht
        rcases ht with ht | rfl
        · exact h2 t ht hmt hut
        · have : meadowKey tree.MeadowId userID m' = true :=
            (meadowKey_iff _ _ _).2 ⟨hmt.symm, hut.symm⟩
          rw [this] at hnk
          exact absurd hnk (by decide)
    · -- the meadow that receives the new ID
      obtain ⟨r, hq, hr, hrid, hru⟩ := first_match_of_key _ _ _ m hm hkm
      have hf : (FindOneMeadowByIdForUser s tree.MeadowId userID).TreeIds = r.TreeIds := by
        unfold FindOneMeadowByIdForUser
        rw [hq]
        rfl
      obtain ⟨hmi, hmu⟩ := (meadowKey_iff _ _ _).1 hkm
      obtain ⟨h1, h2⟩ := hs r hr
      rw [hf]
      constructor
      · intro id hidm
        dsimp only at hidm ⊢
        rw [List.mem_append, List.mem_singleton] at hidm
        rcases hidm with hidm | rfl
        · obtain ⟨t, ht, e1, e2, e3⟩ := h1 id hidm
          exact ⟨t, List.mem_append_left _ ht, e1, by rw [e2, hrid, hmi], by rw [e3, hru, hmu]⟩
        · exact ⟨_, List.mem_append_right _ (List.mem_singleton.2 rfl), rfl, hmi.symm, hmu.symm⟩
      · intro t ht hmt hut
        dsimp only at ht hmt hut ⊢
        rw [List.mem_append, List.mem_singleton] at ht
        rcases ht with ht | rfl
        · exact List.mem_append_left _
            (h2 t ht (by rw [hmt, hmi, hrid]) (by rw [hut, hmu, hru]))
        · exact List.mem_append_right _ (List.mem_singleton.2 rfl)
  · refine ⟨?_, ?_, ?_⟩
    · dsimp only
      rw [List.map_append, List.nodup_append]
      refine ⟨hnd, List.nodup_singleton _, ?_⟩
      intro a ha hb
      rw [List.map_singleton, List.mem_singleton] at hb
      rw [List.mem_map] at ha
      obtain ⟨t, ht, rfl⟩ := ha
      exact absurd hb (ne_of_lt (hid t ht))
    · intro t ht
      dsimp only at ht ⊢
      rw [List.mem_append, List.mem_singleton] at ht
      rcases ht with ht | rfl
      · have := hid t ht; omega
      · dsimp only; omega
    · intro t ht
      dsimp only at ht ⊢
      rw [List.mem_append, List.mem_singleton] at ht
      rcases ht with ht | rfl
      · exact hmid t ht
      · exact hadm

theorem keysIssued_of_filter (s : Store) (p : TreeRow → Bool) (meadows : List MeadowRow)
    (hk : TreeKeysIssued s) :
    TreeKeysIssued { s with trees := List.filter p s.trees, meadows := meadows } := by
  obtain ⟨hnd, hid, hmid⟩ := hk
  refine ⟨?_, ?_, ?_⟩
  · exact hnd.sublist ((List.filter_sublist s.trees).map _)
  · intro t ht
    exact hid t (List.mem_filter.1 ht).1
  · intro t ht
    exact hmid t (List.mem_filter.1 ht).1

theorem synced_deleteTree (s : Store) (treeId userID : Int)
    (hs : TreeIdsSynced s) (hk : TreeKeysIssued s) :
    TreeIdsSynced (DeleteOneTreeForUser s treeId userID).1 ∧
      TreeKeysIssued (DeleteOneTreeForUser s treeId userID).1 := by
  by_cases h0 : (FindOneTreeById s treeId userID).ID = 0
  · have : DeleteOneTreeForUser s treeId userID = (s, some (DbError.treeNotFound treeId)) := by
      unfold DeleteOneTreeForUser
      dsimp only
      rw [if_pos h0]
    rw [this]
    exact ⟨hs, hk⟩
  · rw [deleteOneTree_store s treeId userID h0]
    refine ⟨?_, keysIssued_of_filter s _ _ hk⟩
    obtain ⟨t0, hq0, hf0⟩ := found_of_tree_id_ne_zero s treeId userID h0
    have ht0 : t0 ∈ s.trees := List.mem_of_find?_eq_some hq0
    obtain ⟨ht0id, ht0u⟩ := (treeKey_iff _ _ _).1 (List.find?_some hq0)
    have hmid : (FindOneTreeById s treeId userID).MeadowId = t0.MeadowId := by rw [hf0]; rfl
    rw [hmid]
    have huniq : ∀ t ∈ s.trees, t.ID = treeId → t = t0 := fun t ht e =>
      List.inj_on_of_nodup_map hk.1 ht ht0 (by rw [e, ht0id])
    intro m' hm'
    dsimp only at hm'
    rcases mem_withTreeIds _ _ _ _ _ hm' with ⟨hm, hnk⟩ | ⟨m, hm, hkm, rfl⟩
    · -- a meadow the UPDATE does not match
      obtain ⟨h1, h2⟩ := hs m' hm
      constructor
      · intro id hidm
        obtain ⟨t, ht, e1, e2, e3⟩ := h1 id hidm
        refine ⟨t, ?_, e1, e2, e3⟩
        dsimp only
        rw [List.mem_filter]
        refine ⟨ht, ?_⟩
        cases htk : treeKey treeId userID t with
        | false => rfl
        | true =>
          have htt : t = t0 := huniq t ht ((treeKey_iff _ _ _).1 htk).1
          have : meadowKey t0.MeadowId userID m' = true :=
            (meadowKey_iff _ _ _).2 ⟨by rw [← e2, htt], by rw [← e3, htt, ht0u]⟩
          rw [this] at hnk
          exact absurd hnk (by decide)
      · intro t ht hmt hut
        exact h2 t (List.mem_filter.1 ht).1 hmt hut
    · -- the meadow of the deleted tree
      obtain ⟨r, hq, hr, hrid, hru⟩ := first_match_of_key _ _ _ m hm hkm
      have hf : (FindOneMeadowByIdForUser s t0.MeadowId userID).TreeIds = r.TreeIds := by
        unfold FindOneMeadowByIdForUser
        rw [hq]
        rfl
      obtain ⟨hmi, hmu⟩ := (meadowKey_iff _ _ _).1 hkm
      obtain ⟨h1, h2⟩ := hs r hr
      rw [hf]
      constructor
      · intro id hidm
        dsimp only at hidm ⊢
        rw [List.mem_filter] at hidm
        have hne : id ≠ treeId := by simpa using hidm.2
        obtain ⟨t, ht, e1, e2, e3⟩ := h1 id hidm.1
        refine ⟨t, ?_, e1, by rw [e2, hrid, hmi], by rw [e3, hru, hmu]⟩
        rw [List.mem_filter]
        refine ⟨ht, ?_⟩
        have : treeKey treeId userID t = false := by
          cases htk : treeKey treeId userID t with
          | false => rfl
          | true => exact absurd (e1 ▸ ((treeKey_iff _ _ _).1 htk).1) hne
        simp [this]
      · intro t ht hmt hut
        dsimp only at ht hmt hut ⊢
        rw [List.mem_filter] at ht ⊢
        refine ⟨h2 t ht.1 (by rw [hmt, hmi, hrid]) (by rw [hut, hmu, hru]), ?_⟩
        have hnk : treeKey treeId userID t = false := by simpa using ht.2
        have hne : t.ID ≠ treeId := by
          intro e
          have : treeKey treeId userID t = true := (treeKey_iff _ _ _).2 ⟨e, by rw [hut, hmu]⟩
          rw [hnk] at this
          exact absurd this (by decide)
        simpa using hne

theorem synced_deleteMeadow (s : Store) (meadowId userID : Int)
    (hs : TreeIdsSynced s) (hk : TreeKeysIssued s) :
    TreeIdsSynced (DeleteOneMeadowForUser s meadowId userID).1 ∧
      TreeKeysIssued (DeleteOneMeadowForUser s meadowId userID).1 := by
  by_cases h0 : (FindOneMeadowByIdForUser s meadowId userID).ID = 0
  · have : DeleteOneMeadowForUser s meadowId userID =
        (s, some (DbError.meadowNotFound meadowId)) := by
      unfold DeleteOneMeadowForUser
      dsimp only
      rw [if_pos h0]
    rw [this]
    exact ⟨hs, hk⟩
  · rw [deleteOneMeadow_store s meadowId userID h0]
    refine ⟨?_, keysIssued_of_filter s _ _ hk⟩
    obtain ⟨r, hq, hf⟩ := found_of_meadow_id_ne_zero s meadowId userID h0
    have hr : r ∈ s.meadows := List.mem_of_find?_eq_some hq
    obtain ⟨hrid, hru⟩ := (meadowKey_iff _ _ _).1 (List.find?_some hq)
    have hL : (FindOneMeadowByIdForUser s meadowId userID).TreeIds = r.TreeIds := by
      rw [hf]; rfl
    rw [hL]
    intro m hm
    dsimp only at hm
    rw [List.mem_filter] at hm
    obtain ⟨hm, hnk⟩ := hm
    have hnk : meadowKey meadowId userID m = false := by simpa using hnk
    obtain ⟨h1, h2⟩ := hs m hm
    constructor
    · intro id hidm
      obtain ⟨t, ht, e1, e2, e3⟩ := h1 id hidm
      refine ⟨t, ?_, e1, e2, e3⟩
      dsimp only
      rw [List.mem_filter]
      refine ⟨ht, ?_⟩
      by_cases hin : t.ID ∈ r.TreeIds ∧ t.user_id = userID
      · exfalso
        obtain ⟨t', ht', f1, f2, f3⟩ := (hs r hr).1 t.ID hin.1
        have htt : t' = t := List.inj_on_of_nodup_map hk.1 ht' ht f1
        have : meadowKey meadowId userID m = true :=
          (meadowKey_iff _ _ _).2 ⟨by rw [← e2, ← htt, f2, hrid], by rw [← e3, hin.2]⟩
        rw [hnk] at this
        exact absurd this (by decide)
      · rw [not_and_or] at hin
        rcases hin with hin | hin <;> simp [hin]
    · intro t ht hmt hut
      exact h2 t (List.mem_filter.1 ht).1 hmt hut

/-- One admissible operation keeps the `TreeIds` invariant and the key
discipline of table `trees`. -/
theorem step_keeps_synced (s : Store) (op : Op) (hs : TreeIdsSynced s) (hk : TreeKeysIssued s)
    (hadm : Op.Admissible s op) :
    TreeIdsSynced (step s op) ∧ TreeKeysIssued (step s op) := by
  cases op with
  | insertMeadow meadow userID => exact synced_insertMeadow s meadow userID hs hk hadm
  | insertTree tree userID => exact synced_insertTree s tree userID hs hk hadm
  | deleteTree treeId userID => exact synced_deleteTree s treeId userID hs hk
  | deleteMeadow meadowId userID => exact synced_deleteMeadow s meadowId userID hs hk

/-- C1 counterexample: from the empty database, where every meadow trivially
satisfies the invariant, (a) one `insertMeadow` whose payload lists tree 7
leaves a meadow that lists a tree that does not exist, and (b) an `insertTree`
naming meadow 1 before it exists, followed by the `insertMeadow` that creates
meadow 1, leaves a tree of meadow 1 that the meadow does not list. -/
theorem synced_broken_by_payloads :
    TreeIdsSynced Store.empty ∧
    ¬ TreeIdsSynced (run Store.empty [Op.insertMeadow ⟨0, "a", "b", 1, [7]⟩ 7]) ∧
    ¬ TreeIdsSynced (run Store.empty
        [Op.insertTree ⟨0, "2024-03-01", 1, "10,20", "Oak"⟩ 7,
         Op.insertMeadow ⟨0, "a", "b", 1, []⟩ 7]) := by
  decide

/-- C1 (amended): starting from a store in which every meadow's `TreeIds` is
the set of IDs of the trees with that `MeadowId` and owner, tree IDs are
unique and were issued by the counter, and every tree's `MeadowId` is below
the meadow counter, every sequence of `insertMeadow` with an empty `TreeIds`
payload, `insertTree` with a `MeadowId` below the meadow counter,
`DeleteOneTreeForUser` and `DeleteOneMeadowForUser` ends in a store in which
every meadow again satisfies the invariant. -/
theorem run_keeps_synced (ops : List Op) (s : Store) (hs : TreeIdsSynced s)
    (hk : TreeKeysIssued s) (hadm : AdmissibleSeq s ops) :
    TreeIdsSynced (run s ops) ∧ TreeKeysIssued (run s ops) := by
  induction ops generalizing s with
  | nil => exact ⟨hs, hk⟩
  | cons op rest ih =>
    obtain ⟨h1, h2⟩ := hadm
    obtain ⟨hs', hk'⟩ := step_keeps_synced s op hs hk h1
    exact ih (step s op) hs' hk' h2

theorem run_keeps_synced_witness :
    TreeIdsSynced (run Store.empty
      [Op.insertMeadow ⟨0, "North Field", "Oak Grove", 25, []⟩ 7,
       Op.insertTree ⟨0, "2024-03-01", 1, "10,20", "Oak"⟩ 7,
       Op.insertTree ⟨0, "2024-03-02", 1, "11,20", "Elm"⟩ 7,
       Op.deleteTree 1 7,
       Op.deleteMeadow 1 7]) :=
  (run_keeps_synced _ Store.empty (by decide) (by decide) (by decide)).1

/-! ## Images and uploads -/

/-- C11: when the image row found for `(imageID, userID)` stores a path with
no file on disk, `DeleteTreeImage` returns the error "file does not exist"
and leaves both the store (the metadata row included) and the file system as
they were. -/
theorem deleteTreeImage_missing_file (s : Store) (fs : FileSystem) (imageID userID : Int)
    (r : ImageRow) (hr : queryRow s.images (imageKey imageID userID) = some r)
    (hmissing : fileExists fs r.path = false) :
    DeleteTreeImage s fs imageID userID =
      (s, fs, some (ImageDbError.fileDoesNotExist r.path)) := by
  unfold DeleteTreeImage
  rw [hr]
  simp [hmissing]

theorem deleteTreeImage_missing_file_witness :
    DeleteTreeImage
        ⟨[], [], [⟨1, "uploads/img1.jpg", "first", "2024-03-01T00:00:00Z", 1, 7⟩], 1, 1, 2⟩
        [("uploads/other.jpg", [1, 2])] 1 7 =
      (⟨[], [], [⟨1, "uploads/img1.jpg", "first", "2024-03-01T00:00:00Z", 1, 7⟩], 1, 1, 2⟩,
        [("uploads/other.jpg", [1, 2])],
        some (ImageDbError.fileDoesNotExist "uploads/img1.jpg")) :=
  deleteTreeImage_missing_file _ _ 1 7
    ⟨1, "uploads/img1.jpg", "first", "2024-03-01T00:00:00Z", 1, 7⟩ (by decide) (by decide)

theorem readFile_osCreate (fs : FileSystem) (path : String) :
    readFile (osCreate fs path) path = some [] := by
  have hnone : (fs.filter (fun f => f.1 != path)).find? (fun f => f.1 == path) = none := by
    rw [List.find?_eq_none]
    intro f hf
    rw [List.mem_filter] at hf
    have := hf.2
    simpa using this
  unfold readFile osCreate
  rw [List.find?_append, hnone]
  simp [List.find?]

theorem writeFile_nothing (fs : FileSystem) (path : String) : writeFile fs path [] = fs := by
  unfold writeFile
  conv_rhs => rw [← List.map_id fs]
  apply List.map_congr_left
  intro f _
  split <;> simp

/-- C13: for every upload whose bytes `b` pass `isValidFileType`, the handler
answers 200 and returns the created file, and that file is empty: `io.ReadAll`
has left the reader at EOF, so `dst.ReadFrom` copies nothing.  The file holds
`b` only when `b` is empty. -/
theorem upload_leaves_empty_file (detectContentType : List Nat → String) (fs : FileSystem)
    (filename : String) (b : List Nat) (hvalid : isValidFileType detectContentType b = true) :
    UploadImageHandler detectContentType fs (some (filename, b)) =
      (osCreate fs ("uploads/" ++ filename), some ("uploads/" ++ filename), 200) ∧
    readFile (UploadImageHandler detectContentType fs (some (filename, b))).1
      ("uploads/" ++ filename) = some [] ∧
    (b ≠ [] → readFile (UploadImageHandler detectContentType fs (some (filename, b))).1
      ("uploads/" ++ filename) ≠ some b) := by
  have h : UploadImageHandler detectContentType fs (some (filename, b)) =
      (osCreate fs ("uploads/" ++ filename), some ("uploads/" ++ filename), 200) := by
    unfold UploadImageHandler readToEOF createFile
    simp only [List.drop_zero, hvalid, Bool.not_true, Bool.false_eq_true, if_false,
      List.drop_length, writeFile_nothing]
  refine ⟨h, ?_, ?_⟩
  · rw [h, readFile_osCreate]
  · intro hb
    rw [h, readFile_osCreate]
    intro e
    exact hb (Option.some.inj e).symm

theorem upload_leaves_empty_file_witness :
    readFile (UploadImageHandler detectPngOnly []
        (some ("img1.png", [137, 80, 78, 71, 13, 10, 26, 10, 0, 0, 0, 13]))).1
      "uploads/img1.png" = some [] :=
  (upload_leaves_empty_file detectPngOnly [] "img1.png"
    [137, 80, 78, 71, 13, 10, 26, 10, 0, 0, 0, 13] (by decide)).2.1

theorem imageKey_iff (imageID userID : Int) (r : ImageRow) :
    imageKey imageID userID r = true ↔ r.id = imageID ∧ r.user_id = userID := by
  simp [imageKey]

theorem filter_of_delete {α : Type} (l : List α) (p q : α → Bool)
    (h : ∀ r, p r = true → q r = false) :
    (l.filter (fun r => !p r)).filter q = l.filter q := by
  rw [List.filter_filter]
  apply List.filter_congr
  intro r _
  cases hq : q r with
  | false => rfl
  | true =>
    cases hp : p r with
    | false => rfl
    | true => rw [h r hp] at hq; exact absurd hq (by decide)

theorem filter_of_update {α : Type} (l : List α) (p q : α → Bool) (f : α → α)
    (h : ∀ r, p r = true → q r = false ∧ q (f r) = false) :
    (l.map (fun r => if p r then f r else r)).filter q = l.filter q := by
  induction l with
  | nil => rfl
  | cons a rest ih =>
    rw [List.map_cons]
    cases hp : p a with
    | true =>
      obtain ⟨h1, h2⟩ := h a hp
      simp only [if_true]
      rw [List.filter_cons_of_neg (by simp [h2]), List.filter_cons_of_neg (by simp [h1]), ih]
    | false =>
      simp only [Bool.false_eq_true, if_false]
      cases hq : q a with
      | true => rw [List.filter_cons_of_pos hq, List.filter_cons_of_pos hq, ih]
      | false =>
        rw [List.filter_cons_of_neg (by simp [hq]), List.filter_cons_of_neg (by simp [hq]), ih]

theorem filter_of_insert {α : Type} (l : List α) (q : α → Bool) (new : α) (h : q new = false) :
    (l ++ [new]).filter q = l.filter q := by
  rw [List.filter_append, List.filter_cons_of_neg (by simp [h])]
  simp

theorem owner_ne_of_meadowKey (A B : Int) (hAB : A ≠ B) (meadowId : Int) (r : MeadowRow)
    (h : meadowKey meadowId A r = true) : (r.user_id == B) = false := by
  have := ((meadowKey_iff _ _ _).1 h).2
  simpa [this] using hAB

theorem owner_ne_of_treeKey (A B : Int) (hAB : A ≠ B) (treeId : Int) (r : TreeRow)
    (h : treeKey treeId A r = true) : (r.user_id == B) = false := by
  have := ((treeKey_iff _ _ _).1 h).2
  simpa [this] using hAB

theorem deleteOneMeadow_keeps_other_owner (s : Store) (A B : Int) (hAB : A ≠ B)
    (meadowId : Int) :
    meadowsOf (DeleteOneMeadowForUser s meadowId A).1 B = meadowsOf s B ∧
    treesOf (DeleteOneMeadowForUser s meadowId A).1 B = treesOf s B := by
  by_cases h0 : (FindOneMeadowByIdForUser s meadowId A).ID = 0
  · have : DeleteOneMeadowForUser s meadowId A = (s, some (DbError.meadowNotFound meadowId)) := by
      unfold DeleteOneMeadowForUser
      dsimp only
      rw [if_pos h0]
    rw [this]
    exact ⟨rfl, rfl⟩
  · rw [deleteOneMeadow_store s meadowId A h0]
    unfold meadowsOf treesOf
    dsimp only
    constructor
    · exact filter_of_delete _ _ _ (fun r hr => owner_ne_of_meadowKey A B hAB _ r hr)
    · apply filter_of_delete
      intro r hr
      simp only [Bool.and_eq_true, decide_eq_true_eq, beq_iff_eq] at hr
      simpa [hr.2] using hAB

theorem deleteOneTree_keeps_other_owner (s : Store) (A B : Int) (hAB : A ≠ B) (treeId : Int) :
    meadowsOf (DeleteOneTreeForUser s treeId A).1 B = meadowsOf s B ∧
    treesOf (DeleteOneTreeForUser s treeId A).1 B = treesOf s B := by
  by_cases h0 : (FindOneTreeById s treeId A).ID = 0
  · have : DeleteOneTreeForUser s treeId A = (s, some (DbError.treeNotFound treeId)) := by
      unfold DeleteOneTreeForUser
      dsimp only
      rw [if_pos h0]
    rw [this]
    exact ⟨rfl, rfl⟩
  · rw [deleteOneTree_store s treeId A h0]
    constructor
    · unfold meadowsOf withTreeIds
      dsimp only
      exact filter_of_update _ _ _ _
        (fun r hr => ⟨owner_ne_of_meadowKey A B hAB _ r hr, owner_ne_of_meadowKey A B hAB _ r hr⟩)
    · unfold treesOf
      dsimp only
      exact filter_of_delete _ _ _ (fun r hr => owner_ne_of_treeKey A B hAB _ r hr)

/-- C15: for distinct users `A` and `B` and every store, each mutating
repository function called with `userID = A` leaves the meadow rows and the
tree rows owned by `B` exactly as they were, for every entity ID and payload:
`DeleteOneMeadowForUser`, `DeleteOneTreeForUser`, `UpdateMeadowTreeIdsForUser`,
`UpdateMeadowForUser`, `UpdateTreeForUser`, `InsertOneMeadowForUser`,
`InsertOneTreeForUser` and the `insertTree` handler. -/
theorem mutations_keep_other_owner_rows (s : Store) (A B : Int) (hAB : A ≠ B) :
    (∀ meadowId, meadowsOf (DeleteOneMeadowForUser s meadowId A).1 B = meadowsOf s B ∧
      treesOf (DeleteOneMeadowForUser s meadowId A).1 B = treesOf s B) ∧
    (∀ treeId, meadowsOf (DeleteOneTreeForUser s treeId A).1 B = meadowsOf s B ∧
      treesOf (DeleteOneTreeForUser s treeId A).1 B = treesOf s B) ∧
    (∀ meadowId treeId shouldDelete,
      meadowsOf (UpdateMeadowTreeIdsForUser s meadowId treeId shouldDelete A).1 B
        = meadowsOf s B ∧
      treesOf (UpdateMeadowTreeIdsForUser s meadowId treeId shouldDelete A).1 B
        = treesOf s B) ∧
    (∀ meadow, meadowsOf (UpdateMeadowForUser s meadow A) B = meadowsOf s B ∧
      treesOf (UpdateMeadowForUser s meadow A) B = treesOf s B) ∧
    (∀ tree, meadowsOf (UpdateTreeForUser s tree A) B = meadowsOf s B ∧
      treesOf (UpdateTreeForUser s tree A) B = treesOf s B) ∧
    (∀ meadow, meadowsOf (InsertOneMeadowForUser s meadow A).1 B = meadowsOf s B ∧
      treesOf (InsertOneMeadowForUser s meadow A).1 B = treesOf s B) ∧
    (∀ tree, meadowsOf (InsertOneTreeForUser s tree A).1 B = meadowsOf s B ∧
      treesOf (InsertOneTreeForUser s tree A).1 B = treesOf s B) ∧
    (∀ tree, meadowsOf (insertTree s tree A).store B = meadowsOf s B ∧
      treesOf (insertTree s tree A).store B = treesOf s B) := by
  have hB : (A == B) = false := by simpa using hAB
  refine ⟨deleteOneMeadow_keeps_other_owner s A B hAB,
    deleteOneTree_keeps_other_owner s A B hAB, ?_, ?_, ?_, ?_, ?_, ?_⟩
  · intro meadowId treeId shouldDelete
    rw [update_store]
    constructor
    · unfold meadowsOf withTreeIds
      dsimp only
      exact filter_of_update _ _ _ _
        (fun r hr => ⟨owner_ne_of_meadowKey A B hAB _ r hr, owner_ne_of_meadowKey A B hAB _ r hr⟩)
    · rfl
  · intro meadow
    constructor
    · unfold meadowsOf UpdateMeadowForUser execUpdate
      dsimp only
      exact filter_of_update _ _ _ _
        (fun r hr => ⟨owner_ne_of_meadowKey A B hAB _ r hr, owner_ne_of_meadowKey A B hAB _ r hr⟩)
    · rfl
  · intro tree
    constructor
    · rfl
    · unfold treesOf UpdateTreeForUser execUpdate
      dsimp only
      exact filter_of_update _ _ _ _
        (fun r hr => ⟨owner_ne_of_treeKey A B hAB _ r hr, owner_ne_of_treeKey A B hAB _ r hr⟩)
  · intro meadow
    constructor
    · unfold meadowsOf InsertOneMeadowForUser
      dsimp only
      exact filter_of_insert _ _ _ hB
    · rfl
  · intro tree
    constructor
    · rfl
    · unfold treesOf InsertOneTreeForUser
      dsimp only
      exact filter_of_insert _ _ _ hB
  · intro tree
    rw [insertTree_store]
    constructor
    · unfold meadowsOf withTreeIds
      dsimp only
      exact filter_of_update _ _ _ _
        (fun r hr => ⟨owner_ne_of_meadowKey A B hAB _ r hr, owner_ne_of_meadowKey A B hAB _ r hr⟩)
    · unfold treesOf
      dsimp only
      exact filter_of_insert _ _ _ hB

theorem mutations_keep_other_owner_rows_witness :
    treesOf (DeleteOneMeadowForUser
        ⟨[⟨1, "North Field", "Oak Grove", 25, [1, 2], 7⟩, ⟨2, "South Field", "Elms", 10, [2], 8⟩],
          [⟨1, "2024-03-01", 1, "10,20", "Oak", 7⟩, ⟨2, "2024-03-02", 2, "11,20", "Elm", 8⟩],
          [], 3, 3, 1⟩ 1 7).1 8 = [⟨2, "2024-03-02", 2, "11,20", "Elm", 8⟩] :=
  ((mutations_keep_other_owner_rows
    ⟨[⟨1, "North Field", "Oak Grove", 25, [1, 2], 7⟩, ⟨2, "South Field", "Elms", 10, [2], 8⟩],
      [⟨1, "2024-03-01", 1, "10,20", "Oak", 7⟩, ⟨2, "2024-03-02", 2, "11,20", "Elm", 8⟩],
      [], 3, 3, 1⟩ 7 8 (by decide)).1 1).2

/-! ## The meadow cascade with failing statements -/

theorem deleteTreeOnlyExec_executed (s : Store) (treeId userID : Int) :
    deleteTreeOnlyExec true s treeId userID = deleteTreeOnly s treeId userID := by
  unfold deleteTreeOnlyExec deleteTreeOnly
  simp

theorem deleteListedTreesExec_executed (treeIds : List Int) (userID : Int) (s : Store) :
    deleteListedTreesExec (fun _ => true) s treeIds userID =
      deleteListedTrees s treeIds userID := by
  induction treeIds generalizing s with
  | nil => rfl
  | cons a rest ih =>
    simp only [deleteListedTreesExec, deleteTreeOnlyExec_executed]
    rw [ih]
    simp [deleteListedTrees]

/-- With every statement executed, the function with explicit outcomes is
`DeleteOneMeadowForUser`. -/
theorem deleteOneMeadowExec_executed (s : Store) (meadowId userID : Int) :
    DeleteOneMeadowForUserExec (fun _ => true) true s meadowId userID =
      DeleteOneMeadowForUser s meadowId userID := by
  unfold DeleteOneMeadowForUserExec DeleteOneMeadowForUser
  simp only [deleteListedTreesExec_executed]
  simp

theorem deleteTreeOnlyExec_frame (execOk : Bool) (s : Store) (treeId userID : Int) :
    (deleteTreeOnlyExec execOk s treeId userID).1.meadows = s.meadows ∧
    (∀ t ∈ (deleteTreeOnlyExec execOk s treeId userID).1.trees, t ∈ s.trees) ∧
    (execOk = true → ∀ t ∈ (deleteTreeOnlyExec execOk s treeId userID).1.trees,
      ¬ (t.ID = treeId ∧ t.user_id = userID)) := by
  cases execOk with
  | false =>
    refine ⟨rfl, fun t ht => ht, fun h => absurd h (by decide)⟩
  | true =>
    rw [deleteTreeOnlyExec_executed, deleteTreeOnly_store]
    refine ⟨rfl, fun t ht => (List.mem_filter.1 ht).1, ?_⟩
    intro _ t ht hk
    have := (List.mem_filter.1 ht).2
    simp [(treeKey_iff _ _ _).2 hk] at this

theorem deleteListedTreesExec_frame (treeIds : List Int) (userID : Int)
    (treeExecOk : Nat → Bool) (s : Store) :
    (deleteListedTreesExec treeExecOk s treeIds userID).meadows = s.meadows ∧
    (∀ t ∈ (deleteListedTreesExec treeExecOk s treeIds userID).trees, t ∈ s.trees) ∧
    (∀ i id, treeIds[i]? = some id → treeExecOk i = true →
      ∀ t ∈ (deleteListedTreesExec treeExecOk s treeIds userID).trees,
        ¬ (t.ID = id ∧ t.user_id = userID)) := by
  induction treeIds generalizing treeExecOk s with
  | nil =>
    refine ⟨rfl, fun t ht => ht, ?_⟩
    intro i id hi
    simp at hi
  | cons a rest ih =>
    obtain ⟨f1, f2, f3⟩ := deleteTreeOnlyExec_frame (treeExecOk 0) s a userID
    obtain ⟨g1, g2, g3⟩ := ih (fun i => treeExecOk (i + 1))
      (deleteTreeOnlyExec (treeExecOk 0) s a userID).1
    simp only [deleteListedTreesExec]
    refine ⟨g1.trans f1, fun t ht => f2 t (g2 t ht), ?_⟩
    intro i id hi hok t ht
    cases i with
    | zero =>
      simp only [List.getElem?_cons_zero, Option.some.injEq] at hi
      subst hi
      exact f3 hok t (g2 t ht)
    | succ j =>
      simp only [List.getElem?_cons_succ] at hi
      exact g3 j id hi hok t ht

/-- C3 counterexample: meadow 1 of user 7 lists tree 1; the `DB.Exec` of the
tree delete fails, the loop only prints the error, the meadow DELETE is
executed and the call returns nil: the meadow is gone but the lookup of
tree 1 by user 7 still returns the tree row. -/
theorem failed_tree_delete_leaves_listed_tree :
    (FindOneMeadowByIdForUser
        ⟨[⟨1, "North Field", "Oak Grove", 25, [1], 7⟩],
          [⟨1, "2024-03-01", 1, "10,20", "Oak", 7⟩], [], 2, 2, 1⟩ 1 7).TreeIds = [1] ∧
    (DeleteOneMeadowForUserExec (fun _ => false) true
        ⟨[⟨1, "North Field", "Oak Grove", 25, [1], 7⟩],
          [⟨1, "2024-03-01", 1, "10,20", "Oak", 7⟩], [], 2, 2, 1⟩ 1 7).2 = none ∧
    FindOneMeadowByIdForUser (DeleteOneMeadowForUserExec (fun _ => false) true
        ⟨[⟨1, "North Field", "Oak Grove", 25, [1], 7⟩],
          [⟨1, "2024-03-01", 1, "10,20", "Oak", 7⟩], [], 2, 2, 1⟩ 1 7).1 1 7 = Meadow.zero ∧
    FindOneTreeById (DeleteOneMeadowForUserExec (fun _ => false) true
        ⟨[⟨1, "North Field", "Oak Grove", 25, [1], 7⟩],
          [⟨1, "2024-03-01", 1, "10,20", "Oak", 7⟩], [], 2, 2, 1⟩ 1 7).1 1 7 =
      ⟨1, "2024-03-01", 1, "10,20", "Oak"⟩ := by
  decide

/-- C3 (amended): whatever statements fail, when `DeleteOneMeadowForUser`
returns nil the meadow row is gone (its lookup gives the zero-valued meadow),
and for every position of `TreeIds` whose tree DELETE was executed, the lookup
of the ID at that position gives the zero-valued tree and no row of the
caller with that ID is left; when every tree DELETE was executed this holds
for every listed ID.  A tree whose DELETE failed is not covered. -/
theorem deleteOneMeadowExec_removes_meadow_and_executed_trees (treeExecOk : Nat → Bool)
    (meadowExecOk : Bool) (s : Store) (meadowId userID : Int)
    (h : (DeleteOneMeadowForUserExec treeExecOk meadowExecOk s meadowId userID).2 = none) :
    FindOneMeadowByIdForUser
        (DeleteOneMeadowForUserExec treeExecOk meadowExecOk s meadowId userID).1 meadowId userID
      = Meadow.zero ∧
    (∀ r ∈ (DeleteOneMeadowForUserExec treeExecOk meadowExecOk s meadowId userID).1.meadows,
      ¬ (r.ID = meadowId ∧ r.user_id = userID)) ∧
    (∀ i id, (FindOneMeadowByIdForUser s meadowId userID).TreeIds[i]? = some id →
      treeExecOk i = true →
      FindOneTreeById (DeleteOneMeadowForUserExec treeExecOk meadowExecOk s meadowId userID).1
          id userID = Tree.zero ∧
      ∀ t ∈ (DeleteOneMeadowForUserExec treeExecOk meadowExecOk s meadowId userID).1.trees,
        ¬ (t.ID = id ∧ t.user_id = userID)) ∧
    ((∀ i, i < (FindOneMeadowByIdForUser s meadowId userID).TreeIds.length →
        treeExecOk i = true) →
      ∀ id ∈ (FindOneMeadowByIdForUser s meadowId userID).TreeIds,
        FindOneTreeById (DeleteOneMeadowForUserExec treeExecOk meadowExecOk s meadowId userID).1
          id userID = Tree.zero) := by
  have hne : (FindOneMeadowByIdForUser s meadowId userID).ID ≠ 0 := by
    intro h0
    unfold DeleteOneMeadowForUserExec at h
    dsimp only at h
    rw [if_pos h0] at h
    exact Option.noConfusion h
  have hok : meadowExecOk = true := by
    cases meadowExecOk with
    | true => rfl
    | false =>
      unfold DeleteOneMeadowForUserExec at h
      dsimp only at h
      rw [if_neg hne] at h
      simp at h
  subst hok
  obtain ⟨g1, _, g3⟩ := deleteListedTreesExec_frame
    (FindOneMeadowByIdForUser s meadowId userID).TreeIds userID treeExecOk s
  have hstore : (DeleteOneMeadowForUserExec treeExecOk true s meadowId userID).1 =
      { deleteListedTreesExec treeExecOk s
          (FindOneMeadowByIdForUser s meadowId userID).TreeIds userID with
        meadows := List.filter (fun r => !meadowKey meadowId userID r) s.meadows } := by
    unfold DeleteOneMeadowForUserExec execDelete
    dsimp only
    rw [if_neg hne, g1]
    simp only [Bool.not_true, Bool.false_eq_true, if_false]
    split <;> rfl
  rw [hstore]
  have htrees : ∀ i id, (FindOneMeadowByIdForUser s meadowId userID).TreeIds[i]? = some id →
      treeExecOk i = true →
      FindOneTreeById
          { deleteListedTreesExec treeExecOk s
              (FindOneMeadowByIdForUser s meadowId userID).TreeIds userID with
            meadows := List.filter (fun r => !meadowKey meadowId userID r) s.meadows }
          id userID = Tree.zero ∧
      ∀ t ∈ (deleteListedTreesExec treeExecOk s
          (FindOneMeadowByIdForUser s meadowId userID).TreeIds userID).trees,
        ¬ (t.ID = id ∧ t.user_id = userID) := by
    intro i id hi hexec
    have hgone := g3 i id hi hexec
    refine ⟨?_, hgone⟩
    have hq : List.find? (treeKey id userID) (deleteListedTreesExec treeExecOk s
        (FindOneMeadowByIdForUser s meadowId userID).TreeIds userID).trees = none := by
      rw [List.find?_eq_none]
      intro t ht hk
      exact hgone t ht ((treeKey_iff _ _ _).1 hk)
    unfold FindOneTreeById queryRow
    dsimp only
    rw [hq]
  refine ⟨?_, ?_, htrees, ?_⟩
  · unfold FindOneMeadowByIdForUser queryRow
    dsimp only
    rw [find_none_of_filter_not]
  · intro r hr hk
    dsimp only at hr
    rw [List.mem_filter] at hr
    have := hr.2
    simp [(meadowKey_iff _ _ _).2 hk] at this
  · intro hall id hid
    obtain ⟨i, hi⟩ := List.mem_iff_getElem?.1 hid
    have hlt : i < (FindOneMeadowByIdForUser s meadowId userID).TreeIds.length := by
      by_contra hge
      rw [List.getElem?_eq_none (Nat.le_of_not_lt hge)] at hi
      exact Option.noConfusion hi
    exact (htrees i id hi (hall i hlt)).1

theorem deleteOneMeadowExec_removes_meadow_and_executed_trees_witness :
    FindOneMeadowByIdForUser (DeleteOneMeadowForUserExec (fun i => i != 0) true
        ⟨[⟨1, "North Field", "Oak Grove", 25, [1, 2], 7⟩],
          [⟨1, "2024-03-01", 1, "10,20", "Oak", 7⟩, ⟨2, "2024-03-02", 1, "11,20", "Elm", 7⟩],
          [], 2, 3, 1⟩ 1 7).1 1 7 = Meadow.zero ∧
    FindOneTreeById (DeleteOneMeadowForUserExec (fun i => i != 0) true
        ⟨[⟨1, "North Field", "Oak Grove", 25, [1, 2], 7⟩],
          [⟨1, "2024-03-01", 1, "10,20", "Oak", 7⟩, ⟨2, "2024-03-02", 1, "11,20", "Elm", 7⟩],
          [], 2, 3, 1⟩ 1 7).1 2 7 = Tree.zero :=
  ⟨(deleteOneMeadowExec_removes_meadow_and_executed_trees (fun i => i != 0) true
      ⟨[⟨1, "North Field", "Oak Grove", 25, [1, 2], 7⟩],
        [⟨1, "2024-03-01", 1, "10,20", "Oak", 7⟩, ⟨2, "2024-03-02", 1, "11,20", "Elm", 7⟩],
        [], 2, 3, 1⟩ 1 7 (by decide)).1,
   ((deleteOneMeadowExec_removes_meadow_and_executed_trees (fun i => i != 0) true
      ⟨[⟨1, "North Field", "Oak Grove", 25, [1, 2], 7⟩],
        [⟨1, "2024-03-01", 1, "10,20", "Oak", 7⟩, ⟨2, "2024-03-02", 1, "11,20", "Elm", 7⟩],
        [], 2, 3, 1⟩ 1 7 (by decide)).2.2.1 1 2 (by decide) (by decide)).1⟩

end TreeSpotter
